import Mathlib

/-!
Verification of the CnQuant_dependencies intensity-normalization core.

This file gives a shallow embedding, over exact rationals, of the numerical
core of the repository:

* `ArrayType.from_probe_count`   (src/cnquant_dependencies/enums/ArrayType.py)
* `huber`                        (src/cnquant_dependencies/preprocessing_functions.py)
* `normexp_signal`, `normexp_get_xs`  (same file)
* `_get_beta`                    (same file)
* `_preprocess_swan_main`        (same file)

Modelling conventions:

* numpy floating point numbers are modelled as exact rationals; a NaN entry is
  `Option.none`; where signed infinities can arise (division by zero in
  `_get_beta`) a dedicated four-constructor type `NF` is used.
* Python exceptions (`raise ValueError`) are modelled with `Except String`.
* numpy warnings (`logger.warning`) are ordinary control flow, not errors.
* Transcendental functions (`exp`, the scipy normal log-density / log-survival
  ratio) cannot be computed exactly on rationals; they are passed in as
  abstract function parameters.  No theorem below depends on their values.
-/

namespace CnQuant

/-- Ascending sort, modelling `np.sort` on a 1-D array. -/
def sortQ (l : List ℚ) : List ℚ := l.insertionSort (· ≤ ·)

/-- Maximum of a list, modelling `np.max` on a nonempty array
(the default value for `[]` is never used under the theorems' hypotheses). -/
def maxL : List ℚ → ℚ
  | [] => 0
  | h :: t => t.foldl max h

/-- Minimum of a list, modelling `np.min` on a nonempty array. -/
def minL : List ℚ → ℚ
  | [] => 0
  | h :: t => t.foldl min h

/-- Mean of a list, modelling `np.mean` on a nonempty array. -/
def listMean (l : List ℚ) : ℚ := l.sum / l.length

/-- `np.median`: sort, take the middle element (odd length) or the average of
the two middle elements (even length).  `np.median` of an empty array is NaN;
the `0` default below is never used under the theorems' nonemptiness
hypotheses. -/
def median (l : List ℚ) : ℚ :=
  if (sortQ l).length = 0 then 0
  else if (sortQ l).length % 2 = 1 then (sortQ l).getD ((sortQ l).length / 2) 0
  else ((sortQ l).getD ((sortQ l).length / 2 - 1) 0
    + (sortQ l).getD ((sortQ l).length / 2) 0) / 2

/-- `np.clip(v, lo, hi)` = `min (max v lo) hi`. -/
def npClip (v lo hi : ℚ) : ℚ := min (max v lo) hi

/-! ## ArrayType (src/cnquant_dependencies/enums/ArrayType.py) -/

/-- The Illumina array designs of `ArrayType` (enums/ArrayType.py). -/
inductive ArrayType where
  | ILLUMINA_27K
  | ILLUMINA_450K
  | ILLUMINA_EPIC
  | ILLUMINA_EPIC_V2
  | ILLUMINA_MSA48
  | ILLUMINA_MOUSE
  | UNKNOWN
deriving DecidableEq

namespace ArrayType

/-- `ArrayType.from_probe_count`: infers the array type from the number of
probes in an idat file, via a cascade of inclusive range tests. -/
def from_probe_count (probe_count : ℤ) : ArrayType :=
  if 622000 ≤ probe_count ∧ probe_count ≤ 623000 then .ILLUMINA_450K
  else if 1050000 ≤ probe_count ∧ probe_count ≤ 1053000 then .ILLUMINA_EPIC
  else if 1032000 ≤ probe_count ∧ probe_count ≤ 1033000 then .ILLUMINA_EPIC
  else if 1100000 ≤ probe_count ∧ probe_count ≤ 1108000 then .ILLUMINA_EPIC_V2
  else if 384400 ≤ probe_count ∧ probe_count ≤ 384600 then .ILLUMINA_MSA48
  else if 55200 ≤ probe_count ∧ probe_count ≤ 55400 then .ILLUMINA_27K
  else if 315000 ≤ probe_count ∧ probe_count ≤ 362000 then .ILLUMINA_MOUSE
  else .UNKNOWN

end ArrayType


/-! ## `huber` (src/cnquant_dependencies/preprocessing_functions.py, lines 5-45)

The source computes `mu = np.median(y)` and `s = np.median(np.abs(y - mu)) *
1.4826` on the NaN-filtered sample, raises when `s == 0`, and then runs an
unbounded `while True` loop: `mu1 = mean(clip(y, mu - k*s, mu + k*s))`,
breaking (and returning the pre-update `mu`) once `|mu - mu1| < tol * s`.
The loop is modelled with an explicit `fuel` budget; `none` means the loop has
not converged within `fuel` iterations. -/

/-- One pass of the `while True` body of `huber`: winsorize the sample at
`mu ± c` (`np.clip`) and take the mean of the clipped values. -/
def huberIter (y : List ℚ) (c mu : ℚ) : ℚ :=
  listMean (y.map (fun v => npClip v (mu - c) (mu + c)))

/-- The `while True` loop of `huber` with an explicit iteration budget (the
source loop is unbounded): on convergence the pre-update location is returned,
exactly as the source breaks before `mu = mu1`. -/
def huberLoop (y : List ℚ) (k tol s : ℚ) : ℕ → ℚ → Option ℚ
  | 0, _ => none
  | fuel + 1, mu =>
    if |mu - huberIter y (k * s) mu| < tol * s then some mu
    else huberLoop y k tol s fuel (huberIter y (k * s) mu)

/-- `np.median(np.abs(y - np.median(y))) * 1.4826`, the initial (and only)
scale estimate of `huber`. -/
def scaledMAD (y : List ℚ) : ℚ :=
  median (y.map (fun v => |v - median y|)) * (14826 / 10000)

/-- `huber(y, k=1.5, tol=1e-6)`: drop NaNs, take the median as initial
location and the scaled MAD as scale, raise if the scale is zero, otherwise
run the winsorized-mean fixed-point loop. -/
def huber (yIn : List (Option ℚ)) (k tol : ℚ) (fuel : ℕ) :
    Except String (Option (ℚ × ℚ)) :=
  if scaledMAD (yIn.filterMap id) = 0 then
    .error "Cannot estimate scale: MAD is zero for this sample"
  else
    .ok ((huberLoop (yIn.filterMap id) k tol (scaledMAD (yIn.filterMap id)) fuel
      (median (yIn.filterMap id))).map (fun m => (m, scaledMAD (yIn.filterMap id))))

theorem foldl_max_init_le (t : List ℚ) (a : ℚ) : a ≤ t.foldl max a := by
  induction t generalizing a with
  | nil => exact le_refl a
  | cons b t ih => exact le_trans (le_max_left a b) (ih (max a b))

theorem le_foldl_max (t : List ℚ) (a : ℚ) : ∀ v ∈ t, v ≤ t.foldl max a := by
  induction t generalizing a with
  | nil => intro v hv; cases hv
  | cons b t ih =>
    intro v hv
    rcases List.mem_cons.mp hv with h | h
    · subst h; exact le_trans (le_max_right a v) (foldl_max_init_le t (max a v))
    · exact ih (max a b) v h

theorem le_maxL (l : List ℚ) (v : ℚ) (hv : v ∈ l) : v ≤ maxL l := by
  cases l with
  | nil => cases hv
  | cons h t =>
    rcases List.mem_cons.mp hv with h1 | h1
    · subst h1; exact foldl_max_init_le t v
    · exact le_foldl_max t h v h1

theorem foldl_min_le_init (t : List ℚ) (a : ℚ) : t.foldl min a ≤ a := by
  induction t generalizing a with
  | nil => exact le_refl a
  | cons b t ih => exact le_trans (ih (min a b)) (min_le_left a b)

theorem foldl_min_le (t : List ℚ) (a : ℚ) : ∀ v ∈ t, t.foldl min a ≤ v := by
  induction t generalizing a with
  | nil => intro v hv; cases hv
  | cons b t ih =>
    intro v hv
    rcases List.mem_cons.mp hv with h | h
    · subst h; exact le_trans (foldl_min_le_init t (min a v)) (min_le_right a v)
    · exact ih (min a b) v h

theorem minL_le (l : List ℚ) (v : ℚ) (hv : v ∈ l) : minL l ≤ v := by
  cases l with
  | nil => cases hv
  | cons h t =>
    rcases List.mem_cons.mp hv with h1 | h1
    · subst h1; exact foldl_min_le_init t v
    · exact foldl_min_le t h v h1

theorem listMean_le (l : List ℚ) (B : ℚ) (hne : l ≠ []) (h : ∀ v ∈ l, v ≤ B) :
    listMean l ≤ B := by
  have hlen : 0 < (l.length : ℚ) := by
    exact_mod_cast List.length_pos.mpr hne
  rw [listMean, div_le_iff₀ hlen]
  calc l.sum ≤ l.length • B := List.sum_le_card_nsmul l B h
  _ = B * l.length := by rw [nsmul_eq_mul]; ring

theorem le_listMean (l : List ℚ) (B : ℚ) (hne : l ≠ []) (h : ∀ v ∈ l, B ≤ v) :
    B ≤ listMean l := by
  have hlen : 0 < (l.length : ℚ) := by
    exact_mod_cast List.length_pos.mpr hne
  rw [listMean, le_div_iff₀ hlen]
  calc B * l.length = l.length • B := by rw [nsmul_eq_mul]; ring
  _ ≤ l.sum := List.card_nsmul_le_sum l B h

/-- The nonempty-list median is an element-average, hence nonnegative on
nonnegative lists. -/
theorem median_nonneg (l : List ℚ) (h : ∀ v ∈ l, 0 ≤ v) : 0 ≤ median l := by
  have hmem : ∀ v ∈ sortQ l, 0 ≤ v := by
    intro v hv
    exact h v ((List.perm_insertionSort (· ≤ ·) l).mem_iff.mp hv)
  unfold median
  split_ifs with h0 h1
  · exact le_refl 0
  · apply hmem
    rw [List.getD_eq_getElem _ _ (by omega : (sortQ l).length / 2 < (sortQ l).length)]
    exact List.getElem_mem _
  · have h2 : (sortQ l).length / 2 - 1 < (sortQ l).length := by omega
    have h3 : (sortQ l).length / 2 < (sortQ l).length := by omega
    have g2 : 0 ≤ (sortQ l).getD ((sortQ l).length / 2 - 1) 0 := by
      rw [List.getD_eq_getElem _ _ h2]
      exact hmem _ (List.getElem_mem _)
    have g3 : 0 ≤ (sortQ l).getD ((sortQ l).length / 2) 0 := by
      rw [List.getD_eq_getElem _ _ h3]
      exact hmem _ (List.getElem_mem _)
    linarith

theorem scaledMAD_nonneg (y : List ℚ) : 0 ≤ scaledMAD y := by
  unfold scaledMAD
  have : 0 ≤ median (y.map (fun v => |v - median y|)) := by
    apply median_nonneg
    intro v hv
    obtain ⟨w, _, rfl⟩ := List.mem_map.mp hv
    exact abs_nonneg _
  positivity

theorem huberIter_mono (y : List ℚ) (c : ℚ) {a b : ℚ} (hab : a ≤ b) :
    huberIter y c a ≤ huberIter y c b := by
  rcases eq_or_ne y [] with rfl | hne
  · exact le_refl _
  · unfold huberIter listMean
    rw [List.length_map, List.length_map]
    have hlen : 0 < (y.length : ℚ) := by
      exact_mod_cast List.length_pos.mpr hne
    rw [div_le_div_iff_of_pos_right hlen]
    apply List.sum_le_sum
    intro v _
    unfold npClip
    exact min_le_min (max_le_max (le_refl v) (by linarith)) (by linarith)

theorem huberIter_le (y : List ℚ) (hne : y ≠ []) (c mu : ℚ) (hc : 0 ≤ c) :
    huberIter y c mu ≤ max (maxL y) mu := by
  apply listMean_le _ _ (by simpa using hne)
  intro w hw
  obtain ⟨v, hv, rfl⟩ := List.mem_map.mp hw
  unfold npClip
  apply le_trans (min_le_left _ _)
  apply max_le
  · exact le_trans (le_maxL y v hv) (le_max_left _ _)
  · exact le_trans (by linarith) (le_max_right (maxL y) mu)

theorem le_huberIter (y : List ℚ) (hne : y ≠ []) (c mu : ℚ) (hc : 0 ≤ c) :
    min (minL y) mu ≤ huberIter y c mu := by
  apply le_listMean _ _ (by simpa using hne)
  intro w hw
  obtain ⟨v, hv, rfl⟩ := List.mem_map.mp hw
  unfold npClip
  calc min (minL y) mu ≤ min v (mu + c) := min_le_min (minL_le y v hv) (by linarith)
  _ ≤ min (max v (mu - c)) (mu + c) := min_le_min (le_max_left _ _) (le_refl _)

/-- Orbits of the winsorized-mean map stay below `max mu0 (maxL y)`. -/
theorem orbit_bounded_above (y : List ℚ) (hne : y ≠ []) (c mu0 : ℚ) (hc : 0 ≤ c) (n : ℕ) :
    (huberIter y c)^[n] mu0 ≤ max mu0 (maxL y) := by
  induction n with
  | zero => simp
  | succ n ih =>
    rw [Function.iterate_succ_apply']
    apply le_trans (huberIter_le y hne c _ hc)
    apply max_le
    · exact le_max_right _ _
    · exact ih

/-- Orbits of the winsorized-mean map stay above `min mu0 (minL y)`. -/
theorem orbit_bounded_below (y : List ℚ) (hne : y ≠ []) (c mu0 : ℚ) (hc : 0 ≤ c) (n : ℕ) :
    min mu0 (minL y) ≤ (huberIter y c)^[n] mu0 := by
  induction n with
  | zero => simp
  | succ n ih =>
    rw [Function.iterate_succ_apply']
    apply le_trans _ (le_huberIter y hne c _ hc)
    exact le_min (min_le_right _ _) ih

/-- If the first step moves up, the whole orbit is nondecreasing. -/
theorem orbit_incr (y : List ℚ) (c mu0 : ℚ) (h : mu0 ≤ huberIter y c mu0) (n : ℕ) :
    (huberIter y c)^[n] mu0 ≤ (huberIter y c)^[n + 1] mu0 := by
  induction n with
  | zero => simpa using h
  | succ n ih =>
    have h2 := huberIter_mono y c ih
    simpa only [← Function.iterate_succ_apply'] using h2

/-- If the first step moves down, the whole orbit is nonincreasing. -/
theorem orbit_decr (y : List ℚ) (c mu0 : ℚ) (h : huberIter y c mu0 ≤ mu0) (n : ℕ) :
    (huberIter y c)^[n + 1] mu0 ≤ (huberIter y c)^[n] mu0 := by
  induction n with
  | zero => simpa using h
  | succ n ih =>
    have h2 := huberIter_mono y c ih
    simpa only [← Function.iterate_succ_apply'] using h2

/-- Termination of the Huber fixed point: on a nonempty sample, with a
nonnegative clip width and positive tolerance, some consecutive pair of
iterates gets closer than `eps` (the source loop would otherwise walk
monotonically beyond the sample range, by the monotonicity of the
winsorized-mean map). -/
theorem exists_small_step (y : List ℚ) (hne : y ≠ []) (c mu0 eps : ℚ)
    (hc : 0 ≤ c) (heps : 0 < eps) :
    ∃ n : ℕ, |(huberIter y c)^[n] mu0 - (huberIter y c)^[n + 1] mu0| < eps := by
  by_contra hcon
  push_neg at hcon
  by_cases hdir : mu0 ≤ huberIter y c mu0
  · have hmono := orbit_incr y c mu0 hdir
    have hstep : ∀ n : ℕ, eps ≤ (huberIter y c)^[n + 1] mu0 - (huberIter y c)^[n] mu0 := by
      intro n
      have h1 := hcon n
      rw [abs_sub_comm, abs_of_nonneg (by linarith [hmono n])] at h1
      linarith
    have hlin : ∀ n : ℕ, mu0 + n * eps ≤ (huberIter y c)^[n] mu0 := by
      intro n
      induction n with
      | zero => simp
      | succ n ih =>
        have h2 := hstep n
        have : ((n : ℚ) + 1) * eps = n * eps + eps := by ring
        push_cast
        linarith
    obtain ⟨n, hn⟩ := exists_nat_gt ((max mu0 (maxL y) - mu0) / eps)
    rw [div_lt_iff₀ heps] at hn
    have hb := orbit_bounded_above y hne c mu0 hc n
    have hl := hlin n
    linarith
  · push_neg at hdir
    have hmono := orbit_decr y c mu0 (le_of_lt hdir)
    have hstep : ∀ n : ℕ, eps ≤ (huberIter y c)^[n] mu0 - (huberIter y c)^[n + 1] mu0 := by
      intro n
      have h1 := hcon n
      rw [abs_of_nonneg (by linarith [hmono n])] at h1
      linarith
    have hlin : ∀ n : ℕ, (huberIter y c)^[n] mu0 ≤ mu0 - n * eps := by
      intro n
      induction n with
      | zero => simp
      | succ n ih =>
        have h2 := hstep n
        push_cast
        linarith
    obtain ⟨n, hn⟩ := exists_nat_gt ((mu0 - min mu0 (minL y)) / eps)
    rw [div_lt_iff₀ heps] at hn
    have hb := orbit_bounded_below y hne c mu0 hc n
    have hl := hlin n
    linarith

/-- If no iterate pair within the budget is `tol * s`-close, the loop runs out
of fuel. -/
theorem huberLoop_eq_none (y : List ℚ) (k tol s : ℚ) (fuel : ℕ) (mu : ℚ)
    (h : ∀ i < fuel, ¬ |(huberIter y (k * s))^[i] mu
      - (huberIter y (k * s))^[i + 1] mu| < tol * s) :
    huberLoop y k tol s fuel mu = none := by
  revert h
  induction fuel generalizing mu with
  | zero => intro h; rfl
  | succ fuel ih =>
    intro h
    rw [huberLoop, if_neg]
    · apply ih
      intro i hi
      have h2 := h (i + 1) (by omega)
      rwa [Function.iterate_succ_apply, Function.iterate_succ_apply] at h2
    · have h0 := h 0 (by omega)
      simpa using h0

/-- If some iterate pair within the budget is `tol * s`-close, the loop
returns a value. -/
theorem huberLoop_isSome_of (y : List ℚ) (k tol s : ℚ) (fuel : ℕ) (mu : ℚ)
    (h : ∃ i < fuel, |(huberIter y (k * s))^[i] mu
      - (huberIter y (k * s))^[i + 1] mu| < tol * s) :
    ∃ r, huberLoop y k tol s fuel mu = some r := by
  revert h
  induction fuel generalizing mu with
  | zero =>
    intro h
    obtain ⟨i, hi, -⟩ := h
    omega
  | succ fuel ih =>
    intro h
    rw [huberLoop]
    by_cases h0 : |mu - huberIter y (k * s) mu| < tol * s
    · rw [if_pos h0]; exact ⟨mu, rfl⟩
    · rw [if_neg h0]
      apply ih
      obtain ⟨i, hi, hst⟩ := h
      cases i with
      | zero => exact absurd (by simpa using hst) h0
      | succ i =>
        refine ⟨i, by omega, ?_⟩
        rwa [Function.iterate_succ_apply, Function.iterate_succ_apply] at hst

/-- Whatever the loop returns is the first iterate whose next step is
`tol * s`-small. -/
theorem huberLoop_eq_some (y : List ℚ) (k tol s : ℚ) (fuel : ℕ) (mu r : ℚ)
    (h : huberLoop y k tol s fuel mu = some r) :
    ∃ j < fuel, r = (huberIter y (k * s))^[j] mu ∧
      |(huberIter y (k * s))^[j] mu - (huberIter y (k * s))^[j + 1] mu| < tol * s ∧
      ∀ i < j, ¬ |(huberIter y (k * s))^[i] mu
        - (huberIter y (k * s))^[i + 1] mu| < tol * s := by
  revert h
  induction fuel generalizing mu r with
  | zero => intro h; simp [huberLoop] at h
  | succ fuel ih =>
    intro h
    rw [huberLoop] at h
    by_cases h0 : |mu - huberIter y (k * s) mu| < tol * s
    · rw [if_pos h0] at h
      have hr : mu = r := by injection h
      subst hr
      refine ⟨0, by omega, by simp, by simpa using h0, ?_⟩
      intro i hi
      omega
    · rw [if_neg h0] at h
      obtain ⟨j, hj, hr, hstop, hmin⟩ := ih (huberIter y (k * s) mu) r h
      refine ⟨j + 1, by omega, ?_, ?_, ?_⟩
      · rw [Function.iterate_succ_apply]; exact hr
      · rw [Function.iterate_succ_apply, Function.iterate_succ_apply]; exact hstop
      · intro i hi
        cases i with
        | zero => simpa using h0
        | succ i =>
          have h3 := hmin i (by omega)
          rw [Function.iterate_succ_apply, Function.iterate_succ_apply]
          exact h3

/-- C5: on a sample whose NaN-filtered values `y` have nonzero MAD (with
`k ≥ 0`, `tol > 0`), `huber` converges for some finite budget and returns a
pair `(mu, s)` where the scale `s` is exactly `1.4826` times the median
absolute deviation of `y` (never re-estimated: the same `s` parametrizes every
iteration), and the location `mu` is the first iterate of the winsorized-mean
map (clip to `[mu - k*s, mu + k*s]`, then mean), started from the median,
whose next step changes by less than `tol * s`. -/
theorem huber_location_scale (yIn : List (Option ℚ)) (y : List ℚ) (k tol : ℚ)
    (hy : y = yIn.filterMap id) (hk : 0 ≤ k) (htol : 0 < tol)
    (hne : y ≠ []) (hs : scaledMAD y ≠ 0) :
    ∃ (fuel : ℕ) (mu : ℚ),
      huber yIn k tol fuel = .ok (some (mu, scaledMAD y)) ∧
      scaledMAD y = median (y.map (fun v => |v - median y|)) * (14826 / 10000) ∧
      ∃ j : ℕ,
        mu = (huberIter y (k * scaledMAD y))^[j] (median y) ∧
        |mu - huberIter y (k * scaledMAD y) mu| < tol * scaledMAD y ∧
        ∀ i < j, ¬ |(huberIter y (k * scaledMAD y))^[i] (median y)
          - (huberIter y (k * scaledMAD y))^[i + 1] (median y)| < tol * scaledMAD y := by
  have hmadpos : 0 < scaledMAD y := lt_of_le_of_ne (scaledMAD_nonneg y) (Ne.symm hs)
  have hcpos : 0 ≤ k * scaledMAD y := mul_nonneg hk (le_of_lt hmadpos)
  have hepos : 0 < tol * scaledMAD y := mul_pos htol hmadpos
  obtain ⟨n0, hn0⟩ :=
    exists_small_step y hne (k * scaledMAD y) (median y) (tol * scaledMAD y) hcpos hepos
  obtain ⟨r, hr⟩ :=
    huberLoop_isSome_of y k tol (scaledMAD y) (n0 + 1) (median y) ⟨n0, by omega, hn0⟩
  obtain ⟨j, hj, hrj, hstop, hmin⟩ := huberLoop_eq_some y k tol (scaledMAD y) _ _ _ hr
  refine ⟨n0 + 1, r, ?_, rfl, j, hrj, ?_, hmin⟩
  · unfold huber
    rw [← hy, if_neg hs, hr]
    rfl
  · rw [hrj, ← Function.iterate_succ_apply' (huberIter y (k * scaledMAD y)) j (median y)]
    exact hstop

/-- Witness for C5: the theorem applied to the sample `[0, 1, 2, NaN]` with
`k = 3/2` and `tol = 1/1000000`. -/
theorem huber_location_scale_witness :
    ∃ (fuel : ℕ) (mu : ℚ),
      huber [some 0, some 1, some 2, none] (3/2) (1/1000000) fuel
        = .ok (some (mu, scaledMAD [0, 1, 2])) := by
  obtain ⟨fuel, mu, h1, -, -⟩ :=
    huber_location_scale [some 0, some 1, some 2, none] [0, 1, 2] (3/2) (1/1000000)
      rfl (by norm_num) (by norm_num) (by simp)
      (by norm_num [scaledMAD, median, sortQ, List.insertionSort, List.orderedInsert, abs])
  exact ⟨fuel, mu, h1⟩

/-- C6: `huber` raises the degenerate-scale `ValueError` exactly when the
scaled MAD of the NaN-filtered sample is zero, and it does so before any
fixed-point iteration: the error already appears with a zero iteration
budget. -/
theorem huber_zero_mad_error (yIn : List (Option ℚ)) (y : List ℚ) (k tol : ℚ) (fuel : ℕ)
    (hy : y = yIn.filterMap id) (hne : y ≠ []) :
    ((∃ e, huber yIn k tol fuel = .error e) ↔ scaledMAD y = 0) ∧
    (scaledMAD y = 0 →
      huber yIn k tol 0 = .error "Cannot estimate scale: MAD is zero for this sample") := by
  constructor
  · constructor
    · rintro ⟨e, he⟩
      by_contra hs
      unfold huber at he
      rw [← hy, if_neg hs] at he
      exact Except.noConfusion he
    · intro hs
      unfold huber
      rw [← hy, if_pos hs]
      exact ⟨_, rfl⟩
  · intro hs
    unfold huber
    rw [← hy, if_pos hs]

/-- Witness for C6: a constant sample has zero MAD and raises immediately,
with a zero iteration budget. -/
theorem huber_zero_mad_error_witness :
    huber [some 5, some 5, some 5] (3/2) (1/1000000) 0
      = .error "Cannot estimate scale: MAD is zero for this sample" := by
  apply (huber_zero_mad_error [some 5, some 5, some 5] [5, 5, 5] (3/2) (1/1000000) 0
    rfl (by simp)).2
  norm_num [scaledMAD, median, sortQ, List.insertionSort, List.orderedInsert, abs]

/-- C7 (amended), termination half: on every sample whose NaN-filtered values
have nonzero MAD (with `k ≥ 0`, `tol > 0`) the fixed-point loop of `huber`
terminates — some finite iteration budget suffices for convergence.  (The
source imposes no iteration cap, and there are inputs needing more than 100
iterations, as shown separately on a slowly contracting 21-point sample.) -/
theorem huber_loop_terminates (yIn : List (Option ℚ)) (y : List ℚ) (k tol : ℚ)
    (hy : y = yIn.filterMap id) (hk : 0 ≤ k) (htol : 0 < tol)
    (hne : y ≠ []) (hs : scaledMAD y ≠ 0) :
    ∃ (fuel : ℕ) (r : ℚ × ℚ), huber yIn k tol fuel = .ok (some r) := by
  have hmadpos : 0 < scaledMAD y := lt_of_le_of_ne (scaledMAD_nonneg y) (Ne.symm hs)
  have hcpos : 0 ≤ k * scaledMAD y := mul_nonneg hk (le_of_lt hmadpos)
  have hepos : 0 < tol * scaledMAD y := mul_pos htol hmadpos
  obtain ⟨n0, hn0⟩ :=
    exists_small_step y hne (k * scaledMAD y) (median y) (tol * scaledMAD y) hcpos hepos
  obtain ⟨r, hr⟩ :=
    huberLoop_isSome_of y k tol (scaledMAD y) (n0 + 1) (median y) ⟨n0, by omega, hn0⟩
  refine ⟨n0 + 1, (r, scaledMAD y), ?_⟩
  unfold huber
  rw [← hy, if_neg hs, hr]
  rfl

/-- Witness for C7 (amended): the theorem applied to the sample `[0, 2, 4]`
with `k = 1` and `tol = 1/2`. -/
theorem huber_loop_terminates_witness :
    ∃ (fuel : ℕ) (r : ℚ × ℚ),
      huber [some 0, some 2, some 4] 1 (1/2) fuel = .ok (some r) := by
  obtain ⟨fuel, r, h1⟩ :=
    huber_loop_terminates [some 0, some 2, some 4] [0, 2, 4] 1 (1/2)
      rfl (by norm_num) (by norm_num) (by simp)
      (by norm_num [scaledMAD, median, sortQ, List.insertionSort, List.orderedInsert, abs])
  exact ⟨fuel, r, h1⟩

/-- On the 21-point sample `[1..9, 10, 10, 12..21]` with `k = 1/10` the clip
width is `c = k * s = 7413/10000`, and throughout `[10, 207413/20000]` the
winsorized mean is the affine map `v ↦ (19v + c + 20)/21`: the nine values
`1..9` are clipped to `v - c`, the two `10`s are unclipped, and the ten values
`12..21` are clipped to `v + c`.  Since 19 of 21 points follow `v`, the map
contracts only by `19/21` per iteration. -/
theorem huberIter_slow_sample (v : ℚ) (h1 : 10 ≤ v) (h2 : v ≤ 207413/20000) :
    huberIter [1, 2, 3, 4, 5, 6, 7, 8, 9, 10, 10, 12, 13, 14, 15, 16, 17, 18, 19, 20, 21]
      ((1/10) * (7413/1000)) v = (19 * v + 7413/10000 + 20) / 21 := by
  have elo : ∀ w : ℚ, w ≤ 9 →
      npClip w (v - (1/10) * (7413/1000)) (v + (1/10) * (7413/1000))
        = v - (1/10) * (7413/1000) := by
    intro w hw
    unfold npClip
    rw [max_eq_right (by linarith), min_eq_left (by linarith)]
  have emid : npClip 10 (v - (1/10) * (7413/1000)) (v + (1/10) * (7413/1000)) = 10 := by
    unfold npClip
    rw [max_eq_left (by linarith), min_eq_left (by linarith)]
  have ehi : ∀ w : ℚ, 12 ≤ w →
      npClip w (v - (1/10) * (7413/1000)) (v + (1/10) * (7413/1000))
        = v + (1/10) * (7413/1000) := by
    intro w hw
    unfold npClip
    rw [max_eq_left (by linarith), min_eq_right (by linarith)]
  unfold huberIter listMean
  simp only [List.map_cons, List.map_nil]
  rw [elo 1 (by norm_num), elo 2 (by norm_num), elo 3 (by norm_num), elo 4 (by norm_num),
    elo 5 (by norm_num), elo 6 (by norm_num), elo 7 (by norm_num), elo 8 (by norm_num),
    elo 9 (by norm_num), emid, ehi 12 (by norm_num), ehi 13 (by norm_num),
    ehi 14 (by norm_num), ehi 15 (by norm_num), ehi 16 (by norm_num), ehi 17 (by norm_num),
    ehi 18 (by norm_num), ehi 19 (by norm_num), ehi 20 (by norm_num), ehi 21 (by norm_num)]
  norm_num
  ring

/-- Closed form of the huber iterates on the 21-point sample
`[1..9, 10, 10, 12..21]`: a geometric approach, with ratio `19/21`, to the
fixed point `207413/20000`. -/
theorem huber_slow_orbit (n : ℕ) :
    (huberIter [1, 2, 3, 4, 5, 6, 7, 8, 9, 10, 10, 12, 13, 14, 15, 16, 17, 18, 19, 20, 21]
      ((1/10) * (7413/1000)))^[n] 10
      = 207413/20000 - (7413/20000) * (19/21)^n := by
  induction n with
  | zero => norm_num
  | succ n ih =>
    have hpow0 : (0:ℚ) < (19/21)^n := pow_pos (by norm_num) n
    have hpow1 : ((19:ℚ)/21)^n ≤ 1 := pow_le_one₀ (by norm_num) (by norm_num)
    have hb1 : (10:ℚ) ≤ 207413/20000 - (7413/20000) * (19/21)^n := by nlinarith
    have hb2 : 207413/20000 - (7413/20000) * (19/21)^n ≤ (207413:ℚ)/20000 := by nlinarith
    rw [Function.iterate_succ_apply', ih, huberIter_slow_sample _ hb1 hb2]
    rw [pow_succ]
    ring

/-- Counterexample to C7 as stated: the `huber` loop is not bounded by a
100-iteration cap.  On the NaN-free integer sample `[1..9, 10, 10, 12..21]`
with `k = 1/10` and `tol = 1/10^10` the MAD is nonzero (`s = 7413/1000`,
clip width `c = 7413/10000`), yet after 100 full iterations the convergence
test has still never fired, so the unbounded source loop runs past 100
iterations and no non-convergence warning exists in the code.  This input is
robust to the exact-rational modelling of float64: 19 of the 21 points stay
clipped along the whole orbit, so each iteration contracts the distance to
the fixed point by only `19/21`, and the step at iteration 99 is about
`1.76e-6` — roughly `2400` times the break threshold `tol * s ≈ 7.4e-10` and
about five orders of magnitude above the float64 rounding error of a 21-term
mean of values below 22 (the sample values, the median `10` and the MAD `5`
are all exact doubles) — so the float64 run of the source is likewise still
unconverged at iteration 100; both arithmetics converge only near iteration
177. -/
theorem huber_exceeds_100_iterations :
    huber [some 1, some 2, some 3, some 4, some 5, some 6, some 7, some 8, some 9,
      some 10, some 10, some 12, some 13, some 14, some 15, some 16, some 17,
      some 18, some 19, some 20, some 21] (1/10) (1/10^10) 100 = .ok none := by
  have hflt : ([some 1, some 2, some 3, some 4, some 5, some 6, some 7, some 8, some 9,
      some 10, some 10, some 12, some 13, some 14, some 15, some 16, some 17,
      some 18, some 19, some 20, some 21] : List (Option ℚ)).filterMap id
      = [1, 2, 3, 4, 5, 6, 7, 8, 9, 10, 10, 12, 13, 14, 15, 16, 17, 18, 19, 20, 21] := rfl
  have hmed : median [1, 2, 3, 4, 5, 6, 7, 8, 9, 10, 10, 12, 13, 14, 15, 16, 17,
      18, 19, 20, 21] = 10 := by
    norm_num [median, sortQ, List.insertionSort, List.orderedInsert]
  have hmad : scaledMAD [1, 2, 3, 4, 5, 6, 7, 8, 9, 10, 10, 12, 13, 14, 15, 16, 17,
      18, 19, 20, 21] = 7413/1000 := by
    norm_num [scaledMAD, median, sortQ, List.insertionSort, List.orderedInsert, abs]
  have hnostop : ∀ i < 100,
      ¬ |(huberIter [1, 2, 3, 4, 5, 6, 7, 8, 9, 10, 10, 12, 13, 14, 15, 16, 17,
          18, 19, 20, 21] ((1/10) * (7413/1000)))^[i] 10
        - (huberIter [1, 2, 3, 4, 5, 6, 7, 8, 9, 10, 10, 12, 13, 14, 15, 16, 17,
          18, 19, 20, 21] ((1/10) * (7413/1000)))^[i + 1] 10|
        < (1/10^10) * (7413/1000) := by
    intro i hi
    rw [not_lt, huber_slow_orbit i, huber_slow_orbit (i + 1)]
    have hpow0 : (0:ℚ) < (19/21)^i := pow_pos (by norm_num) i
    have hr99 : ((19:ℚ)/21)^99 ≤ (19/21)^i :=
      pow_le_pow_of_le_one (by norm_num) (by norm_num) (by omega)
    have habs : |207413/20000 - 7413/20000 * ((19:ℚ)/21)^i
        - (207413/20000 - 7413/20000 * (19/21)^(i+1))|
        = 7413/20000 * (19/21)^i * (2/21) := by
      rw [pow_succ, abs_of_nonpos (by nlinarith)]
      ring
    rw [habs]
    calc (1/10^10) * (7413/1000 : ℚ) ≤ 7413/20000 * (19/21)^99 * (2/21) := by norm_num
    _ ≤ 7413/20000 * (19/21)^i * (2/21) := by nlinarith
  unfold huber
  rw [hflt, hmad, hmed, if_neg (by norm_num),
    huberLoop_eq_none _ _ _ _ _ _ hnostop]
  rfl

/-! ## `normexp_signal` and `normexp_get_xs`
(src/cnquant_dependencies/preprocessing_functions.py, lines 48-137)

`normexp_signal` decodes `sigma = exp(par[1])`, `alpha = exp(par[2])` and
computes `signal = mu_sf + sigma^2 * exp(logpdf - logsf)` through scipy's
normal distribution.  The transcendental pieces cannot be computed on exact
rationals, so the decoded `sigma`/`alpha` are passed in directly (decoded by
the caller through an abstract exponential `expQ`) and the factor
`exp(log_dnorm - log_pnorm)` at each entry is an abstract oracle `expRatio`;
no theorem below depends on the oracle's values. -/

/-- The raw elementwise signal `mu_sf + sigma2 * exp(log_dnorm - log_pnorm)`
(lines 99-102), `mu_sf = x - mu - sigma^2/alpha`; NaN entries (and NaN oracle
results) propagate. -/
def normexpRaw (mu sigma alpha : ℚ) (expRatio : ℚ → Option ℚ)
    (x : List (Option ℚ)) : List (Option ℚ) :=
  x.map (fun o => o.bind (fun xi =>
    (expRatio xi).map (fun r => xi - mu - sigma * sigma / alpha + sigma * sigma * r)))

/-- `normexp_signal(par, x)`: validate `alpha` then `sigma`; compute the raw
signal; if any non-NaN entry is negative, log a numerical-accuracy warning
(ordinary control flow, not an error) and floor every non-NaN entry at
`1e-6`. -/
def normexp_signal (mu sigma alpha : ℚ) (expRatio : ℚ → Option ℚ)
    (x : List (Option ℚ)) : Except String (List (Option ℚ)) :=
  if alpha ≤ 0 then .error "alpha must be positive"
  else if sigma ≤ 0 then .error "sigma must be positive"
  else if (normexpRaw mu sigma alpha expRatio x).any (fun o => o.any (fun v => v < 0)) then
    .ok ((normexpRaw mu sigma alpha expRatio x).map (Option.map (fun v => max v (1/1000000))))
  else .ok (normexpRaw mu sigma alpha expRatio x)

/-- Error-propagating map: a Python loop whose body may raise. -/
def mapExcept {α β : Type} (f : α → Except String β) : List α → Except String (List β)
  | [] => .ok []
  | a :: as =>
    match f a with
    | .error e => .error e
    | .ok b =>
      match mapExcept f as with
      | .error e => .error e
      | .ok bs => .ok (b :: bs)

/-- The dictionary returned by `normexp_get_xs`: the adjusted intensities
`"xs"` and the parameter table `"param"`. -/
structure NormexpResult where
  xs : List (List (Option ℚ))
  param : List (ℚ × ℚ × ℚ)
deriving DecidableEq

/-- `normexp_get_xs(xf, param=..., offset=50)` in its param-given mode (the
`controls` branch, which fits `param` row-by-row with `huber`, is not needed
by the claims, which quantify over arbitrary fitted parameter tables): row `i`
of the result is `normexp_signal(param[i], xf[i])`, and the `xs` field is
`result + offset`.  `param[i] = (mu, log sigma, log alpha)` is decoded through
the abstract exponential `expQ`; `R i` is row `i`'s transcendental oracle. -/
def normexp_get_xs (xf : List (List (Option ℚ))) (param : List (ℚ × ℚ × ℚ))
    (offset : ℚ) (expQ : ℚ → ℚ) (R : ℕ → ℚ → Option ℚ) :
    Except String NormexpResult :=
  match mapExcept (fun i =>
      normexp_signal (param.getD i (0, 0, 0)).1
        (expQ (param.getD i (0, 0, 0)).2.1)
        (expQ (param.getD i (0, 0, 0)).2.2)
        (R i) (xf.getD i [])) (List.range xf.length) with
  | .error e => .error e
  | .ok rows =>
    .ok { xs := rows.map (fun row => row.map (Option.map (fun v => v + offset))),
          param := param }

/-- Every non-NaN entry of a successful `normexp_signal` run is nonnegative:
either no entry was negative, or all non-NaN entries were floored at
`1e-6`. -/
theorem normexp_signal_nonneg (mu sigma alpha : ℚ) (expRatio : ℚ → Option ℚ)
    (x : List (Option ℚ)) (out : List (Option ℚ))
    (h : normexp_signal mu sigma alpha expRatio x = .ok out) :
    ∀ o ∈ out, ∀ v : ℚ, o = some v → 0 ≤ v := by
  unfold normexp_signal at h
  split_ifs at h with h1 h2 h3
  · -- floored branch
    injection h with h
    subst h
    intro o ho v hv
    obtain ⟨o', _, rfl⟩ := List.mem_map.mp ho
    cases o' with
    | none => exact Option.noConfusion hv
    | some w =>
      have hw : max w (1/1000000) = v := by injection hv
      have : (0:ℚ) ≤ max w (1/1000000) :=
        le_trans (by norm_num) (le_max_right w (1/1000000))
      linarith [hw ▸ this]
  · -- no negative entry: everything is already nonnegative
    injection h with h
    subst h
    intro o ho v hv
    subst hv
    by_contra hneg
    push_neg at hneg
    apply h3
    rw [List.any_eq_true]
    exact ⟨some v, ho, by simpa using hneg⟩

/-- A successful `mapExcept` run maps every output element back to a
successful call on some input element. -/
theorem mapExcept_ok_forall {α β : Type} (f : α → Except String β) (l : List α)
    (bs : List β) (h : mapExcept f l = .ok bs) :
    ∀ b ∈ bs, ∃ a ∈ l, f a = .ok b := by
  revert h
  induction l generalizing bs with
  | nil =>
    intro h
    injection h with h
    subst h
    intro b hb
    exact absurd hb (List.not_mem_nil b)
  | cons a as ih =>
    intro h
    unfold mapExcept at h
    cases hfa : f a with
    | error e => rw [hfa] at h; exact Except.noConfusion h
    | ok b0 =>
      rw [hfa] at h
      cases hrest : mapExcept f as with
      | error e => rw [hrest] at h; exact Except.noConfusion h
      | ok bs' =>
        rw [hrest] at h
        injection h with h
        subst h
        intro b hb
        rcases List.mem_cons.mp hb with rfl | hb'
        · exact ⟨a, List.mem_cons_self a as, hfa⟩
        · obtain ⟨a', ha', hfa'⟩ := ih bs' hrest b hb'
          exact ⟨a', List.mem_cons_of_mem a ha', hfa'⟩

/-- C1: whenever the background deconvolution `normexp_get_xs` succeeds, every
non-NaN entry of its `xs` field is at least the configured offset: every
non-NaN `normexp_signal` entry is nonnegative (negative entries having been
floored to `1e-6` with a logged warning, never an exception), and the offset
is then added to every entry. -/
theorem normexp_get_xs_ge_offset (xf : List (List (Option ℚ)))
    (param : List (ℚ × ℚ × ℚ)) (offset : ℚ) (expQ : ℚ → ℚ) (R : ℕ → ℚ → Option ℚ)
    (out : NormexpResult) (h : normexp_get_xs xf param offset expQ R = .ok out) :
    ∀ row ∈ out.xs, ∀ o ∈ row, ∀ v : ℚ, o = some v → offset ≤ v := by
  unfold normexp_get_xs at h
  cases hrows : mapExcept (fun i =>
      normexp_signal (param.getD i (0, 0, 0)).1
        (expQ (param.getD i (0, 0, 0)).2.1)
        (expQ (param.getD i (0, 0, 0)).2.2)
        (R i) (xf.getD i [])) (List.range xf.length) with
  | error e => rw [hrows] at h; exact Except.noConfusion h
  | ok rows =>
    rw [hrows] at h
    injection h with h
    subst h
    intro row hrow o ho v hv
    obtain ⟨row0, hrow0, rfl⟩ := List.mem_map.mp hrow
    obtain ⟨o0, ho0, rfl⟩ := List.mem_map.mp ho
    cases o0 with
    | none => exact Option.noConfusion hv
    | some w =>
      have hv' : w + offset = v := by injection hv
      obtain ⟨i, _, hsig⟩ := mapExcept_ok_forall _ _ _ hrows row0 hrow0
      have hw := normexp_signal_nonneg _ _ _ _ _ _ hsig (some w) ho0 w rfl
      linarith

/-- Witness for C1: a one-probe, one-sample run whose raw signal is negative
(`x = 0`, `mu = 0`, `sigma = alpha = 1` via `expQ = const 1`, oracle `0`, so
the raw signal is `-1`), exercising the `1e-6` floor; the returned entry is
`1/1000000 + 50 ≥ 50`. -/
theorem normexp_get_xs_ge_offset_witness : (50 : ℚ) ≤ 1/1000000 + 50 := by
  apply normexp_get_xs_ge_offset [[some 0]] [(0, 0, 0)] 50 (fun _ => 1) (fun _ _ => some 0)
    (NormexpResult.mk [[some (1/1000000 + 50)]] [(0, 0, 0)])
    (by norm_num [normexp_get_xs, mapExcept, normexp_signal, normexpRaw])
    [some (1/1000000 + 50)] (by simp) (some (1/1000000 + 50)) (by simp)
    (1/1000000 + 50) rfl

/-- C9: `normexp_signal` checks its decoded parameters before computing any
signal: a non-positive `alpha` raises "alpha must be positive", a
non-positive `sigma` (with positive `alpha`) raises "sigma must be positive",
and under the precondition `alpha > 0` and `sigma > 0` no error is raised —
for every input vector and every transcendental oracle. -/
theorem normexp_signal_param_check (mu sigma alpha : ℚ) (expRatio : ℚ → Option ℚ)
    (x : List (Option ℚ)) :
    (alpha ≤ 0 → normexp_signal mu sigma alpha expRatio x = .error "alpha must be positive") ∧
    (0 < alpha → sigma ≤ 0 →
      normexp_signal mu sigma alpha expRatio x = .error "sigma must be positive") ∧
    (0 < alpha → 0 < sigma →
      ∃ out, normexp_signal mu sigma alpha expRatio x = .ok out) := by
  refine ⟨?_, ?_, ?_⟩
  · intro h
    unfold normexp_signal
    rw [if_pos h]
  · intro h1 h2
    unfold normexp_signal
    rw [if_neg (not_le.mpr h1), if_pos h2]
  · intro h1 h2
    unfold normexp_signal
    rw [if_neg (not_le.mpr h1), if_neg (not_le.mpr h2)]
    split_ifs <;> exact ⟨_, rfl⟩

/-- Witness for C9: the three branches at concrete parameters. -/
theorem normexp_signal_param_check_witness :
    normexp_signal 0 1 (-1) (fun _ => some 0) [some 4] = .error "alpha must be positive" ∧
    normexp_signal 0 (-1) 1 (fun _ => some 0) [some 4] = .error "sigma must be positive" ∧
    ∃ out, normexp_signal 0 1 1 (fun _ => some 0) [some 4] = .ok out :=
  ⟨(normexp_signal_param_check 0 1 (-1) (fun _ => some 0) [some 4]).1 (by norm_num),
   (normexp_signal_param_check 0 (-1) 1 (fun _ => some 0) [some 4]).2.1
     (by norm_num) (by norm_num),
   (normexp_signal_param_check 0 1 1 (fun _ => some 0) [some 4]).2.2
     (by norm_num) (by norm_num)⟩

/-! ## `_preprocess_swan_main`
(src/cnquant_dependencies/preprocessing_functions.py, lines 163-197)

Vectors are lists of rationals; the output matrix `swan` starts as all-NaN
(`np.full(intensity.shape, np.nan)`, modelled as `Option` entries) and each
sample row is filled at the subtype positions.  numpy's whole-array mask
operations become elementwise `zip`/`map` operations; the two error sources of
the vectorized code — broadcasting the elementwise average of the two sorted
subsets, and `np.interp`'s validation of its table — are modelled with the
matching numpy error messages. -/

/-- The two probe chemistry subtypes.  (`ProbeType.ONE` / `ProbeType.TWO` come
from the repository's `probes` module, which is not among the sources; only
the two tags are used by `_preprocess_swan_main`, as dictionary keys.) -/
inductive ProbeType where
  | one
  | two
deriving DecidableEq

/-- Fancy indexing `row[idx]` of a rational vector (theorems assume in-bounds
indices; numpy would raise `IndexError` otherwise). -/
def selectIdx (row : List ℚ) (idx : List ℕ) : List ℚ :=
  idx.map (fun j => row.getD j 0)

/-- Fancy indexing of an index vector
(`all_indices[pt][random_subset_indices[pt]]`). -/
def selectNat (l : List ℕ) (idx : List ℕ) : List ℕ :=
  idx.map (fun j => l.getD j 0)

/-- scipy `rankdata` (default `method="average"`, 1-based): the rank of `v`
in `l` is the number of strictly smaller entries plus `(ties + 1) / 2`. -/
def rankAvg (l : List ℚ) (v : ℚ) : ℚ :=
  (l.countP (fun w => w < v) : ℚ) + ((l.countP (fun w => w = v) : ℚ) + 1) / 2

/-- `rankdata(curr) / len(curr)`: the rank-normalized intensity vector. -/
def swanX (curr : List ℚ) : List ℚ :=
  curr.map (fun v => rankAvg curr v / (curr.length : ℚ))

/-- Piecewise-linear interpolation through the table `ps` (x-coordinates
ascending, paired with y-values), constant left and right of the table:
`np.interp`'s documented semantics.  (numpy's binary-search implementation
agrees with this recursion whenever the x-coordinates are strictly
increasing; numpy documents the result as unspecified otherwise.) -/
def interpSeg : List (ℚ × ℚ) → ℚ → ℚ
  | [], _ => 0
  | [p], _ => p.2
  | p :: q :: rest, xv =>
    if xv ≤ p.1 then p.2
    else if xv ≤ q.1 then p.2 + (q.2 - p.2) * (xv - p.1) / (q.1 - p.1)
    else interpSeg (q :: rest) xv

/-- `np.interp(x, xp, fp)` with numpy's validation, in numpy's order: empty
`xp` first, then the `xp`/`fp` length mismatch. -/
def npInterp (x xp fp : List ℚ) : Except String (List ℚ) :=
  if xp.length = 0 then .error "array of sample points is empty"
  else if fp.length ≠ xp.length then .error "fp and xp are not of the same length."
  else .ok (x.map (interpSeg (xp.zip fp)))

/-- numpy broadcast compatibility of two trailing dimensions: equal, or one of
them is `1`. -/
def broadcastCompatible (m n : ℕ) : Prop := m = n ∨ m = 1 ∨ n = 1

instance (m n : ℕ) : Decidable (broadcastCompatible m n) := by
  unfold broadcastCompatible
  infer_instance

/-- Elementwise average of two broadcast-compatible rows (a length-1 operand
is broadcast across the other): `(np.sort(..) + np.sort(..)) / 2`. -/
def broadcastAvg (a b : List ℚ) : List ℚ :=
  if a.length = b.length then (a.zip b).map (fun p => (p.1 + p.2) / 2)
  else if a.length = 1 then b.map (fun v => (a.getD 0 0 + v) / 2)
  else a.map (fun v => (v + b.getD 0 0) / 2)

/-- `swan[i, all_indices[pt]] = vals`: write `vals` at positions `idx`. -/
def scatterRow (row : List (Option ℚ)) (idx : List ℕ) (vals : List ℚ) :
    List (Option ℚ) :=
  (idx.zip vals).foldl (fun r p => r.set p.1 (some p.2)) row

/-- `interp[x > np.max(xp)] += curr_intensity[x > np.max(xp)] - intensity_max`
(line 193), elementwise over the aligned vectors `x`, `curr`, `interp`. -/
def swanShiftHigh (x : List ℚ) (xpmax imax : ℚ) (curr interp : List ℚ) : List ℚ :=
  (x.zip (curr.zip interp)).map
    (fun t => if xpmax < t.1 then t.2.2 + (t.2.1 - imax) else t.2.2)

/-- `interp[x < np.min(xp)] += curr_intensity[x < np.min(xp)] - intensity_min`
(line 194). -/
def swanShiftLow (x : List ℚ) (xpmin imin : ℚ) (curr interp : List ℚ) : List ℚ :=
  (x.zip (curr.zip interp)).map
    (fun t => if t.1 < xpmin then t.2.2 + (t.2.1 - imin) else t.2.2)

/-- The vector produced by lines 182-195 for one sample and one probe type,
when no error occurs: interpolate the normalized ranks through the table
(sorted subset ranks, reference curve `fp`), apply the two out-of-range
shifts, and replace non-positive entries by the background intensity
(`interp[interp <= 0] = bg_intensity[i]`, line 195). -/
def swanTypeVal (curr : List ℚ) (subsetIdx : List ℕ) (fp : List ℚ) (bg : ℚ) :
    List ℚ :=
  (swanShiftLow (swanX curr) (minL (sortQ (selectIdx (swanX curr) subsetIdx)))
      (minL (selectIdx curr subsetIdx)) curr
      (swanShiftHigh (swanX curr) (maxL (sortQ (selectIdx (swanX curr) subsetIdx)))
        (maxL (selectIdx curr subsetIdx)) curr
        ((swanX curr).map
          (interpSeg ((sortQ (selectIdx (swanX curr) subsetIdx)).zip fp))))).map
    (fun v => if v ≤ 0 then bg else v)

/-- The loop body for one sample and one probe type (lines 182-196), with
numpy's two error sources: `np.interp` validates its table, and `np.min` /
`np.max` of an empty subset raise. -/
def swanType (curr : List ℚ) (subsetIdx : List ℕ) (fp : List ℚ) (bg : ℚ) :
    Except String (List ℚ) :=
  match npInterp (swanX curr) (sortQ (selectIdx (swanX curr) subsetIdx)) fp with
  | .error e => .error e
  | .ok _ =>
    if (selectIdx curr subsetIdx).length = 0 then
      .error "zero-size array to reduction operation minimum which has no identity"
    else .ok (swanTypeVal curr subsetIdx fp bg)

/-- The all-NaN-initialized sample row after both probe-type scatters. -/
def swanSampleVal (allIdx rsIdx : ProbeType → List ℕ) (ssiRow row : List ℚ)
    (bg : ℚ) : List (Option ℚ) :=
  scatterRow
    (scatterRow (row.map (fun _ => (none : Option ℚ))) (allIdx .one)
      (swanTypeVal (selectIdx row (allIdx .one)) (rsIdx .one) ssiRow bg))
    (allIdx .two)
    (swanTypeVal (selectIdx row (allIdx .two)) (rsIdx .two) ssiRow bg)

/-- One iteration of the outer sample loop (lines 180-196): probe type ONE is
processed before probe type TWO, so its errors surface first. -/
def swanSample (allIdx rsIdx : ProbeType → List ℕ) (ssiRow row : List ℚ)
    (bg : ℚ) : Except String (List (Option ℚ)) :=
  match swanType (selectIdx row (allIdx .one)) (rsIdx .one) ssiRow bg with
  | .error e => .error e
  | .ok _ =>
    match swanType (selectIdx row (allIdx .two)) (rsIdx .two) ssiRow bg with
    | .error e => .error e
    | .ok _ => .ok (swanSampleVal allIdx rsIdx ssiRow row bg)

/-- `_preprocess_swan_main(intensity, bg_intensity, all_indices,
random_subset_indices)`: the broadcast shape test of
`(np.sort(intensity[:, subset_one]) + np.sort(intensity[:, subset_two])) / 2`
(lines 175-178) comes first — numpy validates the trailing dimensions before
any row is processed — and then each sample row is corrected independently
(the reference curve row used per sample equals the corresponding row of the
vectorized `sorted_subset_intensity`). -/
def _preprocess_swan_main (intensity : List (List ℚ)) (bg_intensity : List ℚ)
    (allIdx rsIdx : ProbeType → List ℕ) :
    Except String (List (List (Option ℚ))) :=
  if ¬ broadcastCompatible (selectNat (allIdx .one) (rsIdx .one)).length
      (selectNat (allIdx .two) (rsIdx .two)).length then
    .error "operands could not be broadcast together"
  else
    mapExcept (fun i =>
      swanSample allIdx rsIdx
        (broadcastAvg
          (sortQ (selectIdx (intensity.getD i []) (selectNat (allIdx .one) (rsIdx .one))))
          (sortQ (selectIdx (intensity.getD i []) (selectNat (allIdx .two) (rsIdx .two)))))
        (intensity.getD i []) (bg_intensity.getD i 0)) (List.range intensity.length)

/-- Counterexample to C8 as stated: subsets of sizes 1 and 2 are mismatched,
yet on a zero-sample intensity matrix `_preprocess_swan_main` raises nothing
at all and returns an (empty) corrected matrix: numpy broadcasting accepts
the shape pair `(0,1) + (0,2)` at the elementwise average, and with no
samples the loop that would hit the `np.interp` length error never runs. -/
theorem swan_mismatched_returns :
    (selectNat [0] [0]).length ≠ (selectNat [1] [0, 0]).length ∧
    _preprocess_swan_main [] []
      (fun pt => match pt with | .one => [0] | .two => [1])
      (fun pt => match pt with | .one => [0] | .two => [0, 0]) = .ok [] := by
  refine ⟨by decide, ?_⟩
  rfl

theorem sortQ_length (l : List ℚ) : (sortQ l).length = l.length :=
  List.length_insertionSort _ l

theorem selectIdx_length (row : List ℚ) (idx : List ℕ) :
    (selectIdx row idx).length = idx.length :=
  List.length_map idx _

theorem selectNat_length (l : List ℕ) (idx : List ℕ) :
    (selectNat l idx).length = idx.length :=
  List.length_map idx _

theorem swanX_length (curr : List ℚ) : (swanX curr).length = curr.length :=
  List.length_map curr _

/-- `swanType` succeeds exactly as `swanTypeVal` when the table is well
formed: `fp` matches the subset size and the subset is nonempty. -/
theorem swanType_ok (curr : List ℚ) (subsetIdx : List ℕ) (fp : List ℚ) (bg : ℚ)
    (hfp : fp.length = subsetIdx.length) (hne0 : subsetIdx.length ≠ 0) :
    swanType curr subsetIdx fp bg = .ok (swanTypeVal curr subsetIdx fp bg) := by
  have hxplen : (sortQ (selectIdx (swanX curr) subsetIdx)).length = subsetIdx.length := by
    rw [sortQ_length, selectIdx_length]
  have h1 : npInterp (swanX curr) (sortQ (selectIdx (swanX curr) subsetIdx)) fp
      = .ok ((swanX curr).map
          (interpSeg ((sortQ (selectIdx (swanX curr) subsetIdx)).zip fp))) := by
    unfold npInterp
    rw [if_neg (by rw [hxplen]; exact hne0), if_neg (by rw [hxplen, hfp]; exact fun h => h rfl)]
  unfold swanType
  rw [h1]
  show (if (selectIdx curr subsetIdx).length = 0 then
      Except.error "zero-size array to reduction operation minimum which has no identity"
    else Except.ok (swanTypeVal curr subsetIdx fp bg))
    = Except.ok (swanTypeVal curr subsetIdx fp bg)
  rw [if_neg (by rw [selectIdx_length]; exact hne0)]

/-- `swanType` fails with numpy's empty-table error when the subset is
empty. -/
theorem swanType_empty_xp_error (curr : List ℚ) (subsetIdx : List ℕ) (fp : List ℚ)
    (bg : ℚ) (h : subsetIdx.length = 0) :
    swanType curr subsetIdx fp bg = .error "array of sample points is empty" := by
  have h1 : npInterp (swanX curr) (sortQ (selectIdx (swanX curr) subsetIdx)) fp
      = .error "array of sample points is empty" := by
    unfold npInterp
    rw [if_pos (by rw [sortQ_length, selectIdx_length]; exact h)]
  unfold swanType
  rw [h1]

/-- `swanType` fails with numpy's length-mismatch error when `fp` does not
match the (nonempty) subset size. -/
theorem swanType_len_error (curr : List ℚ) (subsetIdx : List ℕ) (fp : List ℚ)
    (bg : ℚ) (hne0 : subsetIdx.length ≠ 0) (hfp : fp.length ≠ subsetIdx.length) :
    swanType curr subsetIdx fp bg = .error "fp and xp are not of the same length." := by
  have h1 : npInterp (swanX curr) (sortQ (selectIdx (swanX curr) subsetIdx)) fp
      = .error "fp and xp are not of the same length." := by
    unfold npInterp
    rw [if_neg (by rw [sortQ_length, selectIdx_length]; exact hne0),
      if_pos (by rw [sortQ_length, selectIdx_length]; exact hfp)]
  unfold swanType
  rw [h1]

/-- An error in the probe-type-ONE pass aborts the sample. -/
theorem swanSample_err_one (allIdx rsIdx : ProbeType → List ℕ) (ssiRow row : List ℚ)
    (bg : ℚ) (e : String)
    (h : swanType (selectIdx row (allIdx .one)) (rsIdx .one) ssiRow bg = .error e) :
    swanSample allIdx rsIdx ssiRow row bg = .error e := by
  unfold swanSample
  rw [h]

/-- An error in the probe-type-TWO pass aborts the sample (after ONE
succeeded). -/
theorem swanSample_err_two (allIdx rsIdx : ProbeType → List ℕ) (ssiRow row : List ℚ)
    (bg : ℚ) (v : List ℚ) (e : String)
    (h1 : swanType (selectIdx row (allIdx .one)) (rsIdx .one) ssiRow bg = .ok v)
    (h2 : swanType (selectIdx row (allIdx .two)) (rsIdx .two) ssiRow bg = .error e) :
    swanSample allIdx rsIdx ssiRow row bg = .error e := by
  unfold swanSample
  rw [h1, h2]

/-- Both passes succeeding yields the scattered sample row. -/
theorem swanSample_ok (allIdx rsIdx : ProbeType → List ℕ) (ssiRow row : List ℚ)
    (bg : ℚ)
    (h1 : ssiRow.length = (rsIdx .one).length) (h2 : ssiRow.length = (rsIdx .two).length)
    (hne1 : (rsIdx .one).length ≠ 0) (hne2 : (rsIdx .two).length ≠ 0) :
    swanSample allIdx rsIdx ssiRow row bg
      = .ok (swanSampleVal allIdx rsIdx ssiRow row bg) := by
  unfold swanSample
  rw [swanType_ok _ _ _ _ h1 hne1, swanType_ok _ _ _ _ h2 hne2]

/-- An error on the first element aborts `mapExcept`. -/
theorem mapExcept_cons_error {α β : Type} (f : α → Except String β) (a : α)
    (l : List α) (e : String) (h : f a = .error e) :
    mapExcept f (a :: l) = .error e := by
  unfold mapExcept
  rw [h]

/-- C8 (amended): on a nonempty sample matrix, mismatched subset sizes always
abort `_preprocess_swan_main` with a hard error before any result is
returned: at the elementwise average (numpy broadcast failure) when neither
size is 1 (and neither is 0 against a size other than 1), and otherwise — when
broadcasting masks the mismatch — at the first interpolation call, from
`np.interp`'s table validation.  (With zero samples and broadcast-compatible
mismatched sizes the function instead returns an empty result without error,
as shown separately.) -/
theorem swan_mismatched_sizes_error (intensity : List (List ℚ))
    (bg_intensity : List ℚ) (allIdx rsIdx : ProbeType → List ℕ)
    (hne : intensity ≠ [])
    (hmm : (rsIdx .one).length ≠ (rsIdx .two).length) :
    ∃ e, _preprocess_swan_main intensity bg_intensity allIdx rsIdx = .error e := by
  by_cases hcomp : broadcastCompatible (selectNat (allIdx .one) (rsIdx .one)).length
      (selectNat (allIdx .two) (rsIdx .two)).length
  case neg =>
    refine ⟨"operands could not be broadcast together", ?_⟩
    unfold _preprocess_swan_main
    rw [if_pos hcomp]
  case pos =>
    obtain ⟨r, rest, rfl⟩ : ∃ r rest, intensity = r :: rest := by
      cases intensity with
      | nil => exact absurd rfl hne
      | cons r rest => exact ⟨r, rest, rfl⟩
    have hcomp' : (rsIdx .one).length = (rsIdx .two).length ∨
        (rsIdx .one).length = 1 ∨ (rsIdx .two).length = 1 := by
      rw [selectNat_length, selectNat_length] at hcomp
      exact hcomp
    have hA : (sortQ (selectIdx r (selectNat (allIdx .one) (rsIdx .one)))).length
        = (rsIdx .one).length := by
      rw [sortQ_length, selectIdx_length, selectNat_length]
    have hB : (sortQ (selectIdx r (selectNat (allIdx .two) (rsIdx .two)))).length
        = (rsIdx .two).length := by
      rw [sortQ_length, selectIdx_length, selectNat_length]
    -- the reference row used for sample 0
    have hrow0 : ((r :: rest).getD 0 []) = r := rfl
    have herr : ∃ e, swanSample allIdx rsIdx
        (broadcastAvg
          (sortQ (selectIdx r (selectNat (allIdx .one) (rsIdx .one))))
          (sortQ (selectIdx r (selectNat (allIdx .two) (rsIdx .two)))))
        r (bg_intensity.getD 0 0) = .error e := by
      rcases hcomp' with heq | h1 | h2
      · exact absurd heq hmm
      · -- subset ONE has size 1; the broadcast reference row has size s2 ≠ 1
        have hs2 : (rsIdx .two).length ≠ 1 := fun h => hmm (h1.trans h.symm)
        have hfplen : (broadcastAvg
            (sortQ (selectIdx r (selectNat (allIdx .one) (rsIdx .one))))
            (sortQ (selectIdx r (selectNat (allIdx .two) (rsIdx .two))))).length
            = (rsIdx .two).length := by
          unfold broadcastAvg
          rw [if_neg (by rw [hA, hB]; exact hmm), if_pos (by rw [hA]; exact h1)]
          rw [List.length_map, hB]
        refine ⟨"fp and xp are not of the same length.", ?_⟩
        apply swanSample_err_one
        apply swanType_len_error
        · rw [h1]; exact one_ne_zero
        · rw [hfplen, h1]; exact hs2
      · -- subset TWO has size 1, subset ONE has size s1 ≠ 1
        have hs1 : (rsIdx .one).length ≠ 1 := fun h => hmm (h.trans h2.symm)
        have hfplen : (broadcastAvg
            (sortQ (selectIdx r (selectNat (allIdx .one) (rsIdx .one))))
            (sortQ (selectIdx r (selectNat (allIdx .two) (rsIdx .two))))).length
            = (rsIdx .one).length := by
          unfold broadcastAvg
          rw [if_neg (by rw [hA, hB]; exact hmm), if_neg (by rw [hA]; exact hs1)]
          rw [List.length_map, hA]
        by_cases hs10 : (rsIdx .one).length = 0
        · -- empty subset ONE: np.interp raises the empty-table error
          refine ⟨"array of sample points is empty", ?_⟩
          apply swanSample_err_one
          exact swanType_empty_xp_error _ _ _ _ hs10
        · -- ONE succeeds, TWO hits the length mismatch
          refine ⟨"fp and xp are not of the same length.", ?_⟩
          apply swanSample_err_two _ _ _ _ _
            (swanTypeVal (selectIdx r (allIdx .one)) (rsIdx .one) _ (bg_intensity.getD 0 0)) _
          · exact swanType_ok _ _ _ _ hfplen hs10
          · apply swanType_len_error
            · rw [h2]; exact one_ne_zero
            · rw [hfplen, h2]; exact hs1
    obtain ⟨e, he⟩ := herr
    refine ⟨e, ?_⟩
    unfold _preprocess_swan_main
    rw [if_neg (not_not_intro hcomp)]
    rw [show (r :: rest).length = rest.length + 1 from rfl, List.range_succ_eq_map]
    exact mapExcept_cons_error _ _ _ _ he

/-- Witness for C8 (amended): one sample, subtype ONE subset of size 1,
subtype TWO subset of size 2. -/
theorem swan_mismatched_sizes_error_witness :
    ∃ e, _preprocess_swan_main [[2, 5, 9]] [1]
      (fun pt => match pt with | .one => [0] | .two => [1, 2])
      (fun pt => match pt with | .one => [0] | .two => [0, 1]) = .error e :=
  swan_mismatched_sizes_error [[2, 5, 9]] [1]
    (fun pt => match pt with | .one => [0] | .two => [1, 2])
    (fun pt => match pt with | .one => [0] | .two => [0, 1])
    (by simp) (by decide)

theorem scatter_foldl_not_mem (ps : List (ℕ × ℚ)) (row : List (Option ℚ)) (p : ℕ)
    (h : ∀ q ∈ ps, q.1 ≠ p) :
    (ps.foldl (fun r q => r.set q.1 (some q.2)) row).getD p none = row.getD p none := by
  induction ps generalizing row with
  | nil => rfl
  | cons q ps ih =>
    rw [List.foldl_cons, ih _ (fun q' hq' => h q' (List.mem_cons_of_mem q hq'))]
    rw [List.getD_eq_getElem?_getD, List.getD_eq_getElem?_getD, List.getElem?_set,
      if_neg (h q (List.mem_cons_self q ps))]

/-- Positions outside `idx` are untouched by the scatter. -/
theorem scatterRow_not_mem (row : List (Option ℚ)) (idx : List ℕ) (vals : List ℚ)
    (p : ℕ) (h : p ∉ idx) :
    (scatterRow row idx vals).getD p none = row.getD p none := by
  unfold scatterRow
  apply scatter_foldl_not_mem
  intro q hq hqp
  rcases q with ⟨q1, q2⟩
  exact h (hqp ▸ (List.of_mem_zip hq).1)

theorem scatterRow_length (row : List (Option ℚ)) (idx : List ℕ) (vals : List ℚ) :
    (scatterRow row idx vals).length = row.length := by
  unfold scatterRow
  generalize idx.zip vals = ps
  induction ps generalizing row with
  | nil => rfl
  | cons q ps ih => rw [List.foldl_cons, ih, List.length_set]

/-- The scatter writes `vals[j]` at position `idx[j]` (duplicate-free,
in-bounds index vector). -/
theorem scatterRow_getD (row : List (Option ℚ)) (idx : List ℕ) (vals : List ℚ)
    (hnd : idx.Nodup) (hlen : vals.length = idx.length)
    (hbnd : ∀ a ∈ idx, a < row.length) (j : ℕ) (hj : j < idx.length) :
    (scatterRow row idx vals).getD (idx.getD j 0) none = some (vals.getD j 0) := by
  induction idx generalizing row vals j with
  | nil => exact absurd hj (by simp)
  | cons a idx ih =>
    cases vals with
    | nil => simp at hlen
    | cons v vals =>
      have hstep : scatterRow row (a :: idx) (v :: vals)
          = scatterRow (row.set a (some v)) idx vals := rfl
      rw [hstep]
      cases j with
      | zero =>
        have ha : a ∉ idx := (List.nodup_cons.mp hnd).1
        show (scatterRow (row.set a (some v)) idx vals).getD a none = some v
        rw [scatterRow_not_mem _ _ _ _ ha]
        rw [List.getD_eq_getElem?_getD, List.getElem?_set, if_pos rfl,
          if_pos (hbnd a (List.mem_cons_self a idx))]
        rfl
      | succ j =>
        show (scatterRow (row.set a (some v)) idx vals).getD (idx.getD j 0) none
          = some (vals.getD j 0)
        apply ih (row.set a (some v)) vals ((List.nodup_cons.mp hnd).2)
          (by simpa using hlen)
          (fun b hb => by
            rw [List.length_set]; exact hbnd b (List.mem_cons_of_mem a hb))
          j (by simpa using Nat.lt_of_succ_lt_succ (by simpa using hj))

/-- The elementwise average of two sorted lists is sorted. -/
theorem zipAvg_sorted (a : List ℚ) : ∀ (b : List ℚ), a.Sorted (· ≤ ·) →
    b.Sorted (· ≤ ·) → ((a.zip b).map (fun p => (p.1 + p.2) / 2)).Sorted (· ≤ ·) := by
  induction a with
  | nil => intro b _ _; simp
  | cons x xs ih =>
    intro b ha hb
    cases b with
    | nil => simp
    | cons y ys =>
      rw [List.zip_cons_cons, List.map_cons, List.sorted_cons]
      constructor
      · intro z hz
        obtain ⟨p, hp, rfl⟩ := List.mem_map.mp hz
        rcases p with ⟨p1, p2⟩
        have h1 := (List.of_mem_zip hp).1
        have h2 := (List.of_mem_zip hp).2
        have hx := (List.sorted_cons.mp ha).1 _ h1
        have hy := (List.sorted_cons.mp hb).1 _ h2
        show (x + y) / 2 ≤ (p1 + p2) / 2
        linarith
      · exact ih ys (List.sorted_cons.mp ha).2 (List.sorted_cons.mp hb).2

theorem sortQ_sorted (l : List ℚ) : (sortQ l).Sorted (· ≤ ·) :=
  List.sorted_insertionSort _ l

theorem foldl_min_of_le (t : List ℚ) : ∀ (a : ℚ), (∀ v ∈ t, a ≤ v) →
    t.foldl min a = a := by
  induction t with
  | nil => intro a _; rfl
  | cons b t ih =>
    intro a h
    rw [List.foldl_cons, min_eq_left (h b (List.mem_cons_self b t))]
    exact ih a (fun v hv => h v (List.mem_cons_of_mem b hv))

/-- For a sorted nonempty list the `minL` fold returns the head. -/
theorem sorted_minL_head (l : List ℚ) (hs : l.Sorted (· ≤ ·)) (hne : l ≠ []) :
    minL l = l.head hne := by
  cases l with
  | nil => exact absurd rfl hne
  | cons a t =>
    show t.foldl min a = a
    exact foldl_min_of_le t a (List.sorted_cons.mp hs).1

/-- For a sorted nonempty list the `maxL` fold returns the last element. -/
theorem sorted_maxL_getLast (l : List ℚ) (hs : l.Sorted (· ≤ ·)) (hne : l ≠ []) :
    maxL l = l.getLast hne := by
  induction l with
  | nil => exact absurd rfl hne
  | cons a t ih =>
    cases t with
    | nil => rfl
    | cons b t' =>
      have hab : a ≤ b := (List.sorted_cons.mp hs).1 b (List.mem_cons_self b t')
      have h1 : maxL (a :: b :: t') = maxL (b :: t') := by
        show (b :: t').foldl max a = t'.foldl max b
        rw [List.foldl_cons, max_eq_right hab]
      rw [h1, List.getLast_cons (List.cons_ne_nil b t')]
      exact ih (List.sorted_cons.mp hs).2 (List.cons_ne_nil b t')

theorem minL_le_maxL (l : List ℚ) (hne : l ≠ []) : minL l ≤ maxL l :=
  le_trans (minL_le l _ (List.head_mem hne)) (le_maxL l _ (List.head_mem hne))

/-- Right of the whole table, `interpSeg` returns the last y-value
(`np.interp`'s right fill). -/
theorem interpSeg_of_lt_all : ∀ (ps : List (ℚ × ℚ)) (hne : ps ≠ []) (xv : ℚ),
    (∀ p ∈ ps, p.1 < xv) → interpSeg ps xv = (ps.getLast hne).2
  | [], hne, _, _ => absurd rfl hne
  | [p], _, xv, _ => rfl
  | p :: q :: rest, _, xv, h => by
    have h1 := interpSeg_of_lt_all (q :: rest) (List.cons_ne_nil q rest) xv
      (fun r hr => h r (List.mem_cons_of_mem p hr))
    show (if xv ≤ p.1 then p.2
      else if xv ≤ q.1 then p.2 + (q.2 - p.2) * (xv - p.1) / (q.1 - p.1)
      else interpSeg (q :: rest) xv) = _
    rw [if_neg (not_le.mpr (h p (List.mem_cons_self p _))),
      if_neg (not_le.mpr (h q (List.mem_cons_of_mem p (List.mem_cons_self q rest)))),
      h1, List.getLast_cons (List.cons_ne_nil q rest)]

/-- Left of the whole table, `interpSeg` returns the first y-value
(`np.interp`'s left fill). -/
theorem interpSeg_of_le_head (ps : List (ℚ × ℚ)) (hne : ps ≠ []) (xv : ℚ)
    (h : xv ≤ (ps.head hne).1) : interpSeg ps xv = (ps.head hne).2 := by
  cases ps with
  | nil => exact absurd rfl hne
  | cons p ps' =>
    cases ps' with
    | nil => rfl
    | cons q rest =>
      show (if xv ≤ p.1 then p.2
        else if xv ≤ q.1 then p.2 + (q.2 - p.2) * (xv - p.1) / (q.1 - p.1)
        else interpSeg (q :: rest) xv) = p.2
      rw [if_pos (show xv ≤ p.1 from h)]

theorem zip_getLast_snd (a b : List ℚ) (hlen : a.length = b.length) (hne : b ≠ [])
    (hz : a.zip b ≠ []) : ((a.zip b).getLast hz).2 = b.getLast hne := by
  rw [List.getLast_eq_getElem, List.getLast_eq_getElem, List.getElem_zip]
  simp [List.length_zip, hlen]

theorem zip_head_fst (a b : List ℚ) (hne : a ≠ []) (hz : a.zip b ≠ []) :
    ((a.zip b).head hz).1 = a.head hne := by
  rw [List.head_eq_getElem, List.head_eq_getElem, List.getElem_zip]

theorem zip_head_snd (a b : List ℚ) (hne : b ≠ []) (hz : a.zip b ≠ []) :
    ((a.zip b).head hz).2 = b.head hne := by
  rw [List.head_eq_getElem, List.head_eq_getElem, List.getElem_zip]

/-- `getD` through a rational `map`. -/
theorem getD_map_q (l : List ℚ) (f : ℚ → ℚ) (j : ℕ) (hj : j < l.length) :
    (l.map f).getD j 0 = f (l.getD j 0) := by
  rw [List.getD_eq_getElem _ _ (by simpa using hj), List.getElem_map,
    List.getD_eq_getElem _ _ hj]

theorem swanX_getD (curr : List ℚ) (j : ℕ) (hj : j < curr.length) :
    (swanX curr).getD j 0 = rankAvg curr (curr.getD j 0) / (curr.length : ℚ) := by
  unfold swanX
  exact getD_map_q curr _ j hj

theorem swanShiftHigh_getD (x : List ℚ) (xpmax imax : ℚ) (curr interp : List ℚ)
    (j : ℕ) (h1 : j < x.length) (h2 : j < curr.length) (h3 : j < interp.length) :
    (swanShiftHigh x xpmax imax curr interp).getD j 0
      = if xpmax < x.getD j 0 then interp.getD j 0 + (curr.getD j 0 - imax)
        else interp.getD j 0 := by
  unfold swanShiftHigh
  have hz : j < (x.zip (curr.zip interp)).length := by
    rw [List.length_zip, List.length_zip]
    exact lt_min h1 (lt_min h2 h3)
  rw [List.getD_eq_getElem _ _ (by simpa using hz), List.getElem_map, List.getElem_zip,
    List.getElem_zip, List.getD_eq_getElem _ _ h1, List.getD_eq_getElem _ _ h2,
    List.getD_eq_getElem _ _ h3]

theorem swanShiftLow_getD (x : List ℚ) (xpmin imin : ℚ) (curr interp : List ℚ)
    (j : ℕ) (h1 : j < x.length) (h2 : j < curr.length) (h3 : j < interp.length) :
    (swanShiftLow x xpmin imin curr interp).getD j 0
      = if x.getD j 0 < xpmin then interp.getD j 0 + (curr.getD j 0 - imin)
        else interp.getD j 0 := by
  unfold swanShiftLow
  have hz : j < (x.zip (curr.zip interp)).length := by
    rw [List.length_zip, List.length_zip]
    exact lt_min h1 (lt_min h2 h3)
  rw [List.getD_eq_getElem _ _ (by simpa using hz), List.getElem_map, List.getElem_zip,
    List.getElem_zip, List.getD_eq_getElem _ _ h1, List.getD_eq_getElem _ _ h2,
    List.getD_eq_getElem _ _ h3]

theorem swanTypeVal_length (curr : List ℚ) (S : List ℕ) (fp : List ℚ) (bg : ℚ) :
    (swanTypeVal curr S fp bg).length = curr.length := by
  simp [swanTypeVal, swanShiftLow, swanShiftHigh, List.length_zip, swanX_length]

/-- The pre-floor value claim C2 assigns to subtype position `j`: linear
interpolation of the normalized rank through the table from the sorted subset
ranks to the reference curve; for ranks above (below) the subset's maximum
(minimum) rank, instead the raw intensity's offset from the subset's maximum
(minimum) raw intensity is added to the maximum (minimum) of the reference
curve. -/
def swanBase (curr : List ℚ) (subsetIdx : List ℕ) (refCurve : List ℚ) (j : ℕ) : ℚ :=
  if maxL (sortQ (selectIdx (swanX curr) subsetIdx))
      < rankAvg curr (curr.getD j 0) / (curr.length : ℚ) then
    maxL refCurve + (curr.getD j 0 - maxL (selectIdx curr subsetIdx))
  else if rankAvg curr (curr.getD j 0) / (curr.length : ℚ)
      < minL (sortQ (selectIdx (swanX curr) subsetIdx)) then
    minL refCurve + (curr.getD j 0 - minL (selectIdx curr subsetIdx))
  else
    interpSeg ((sortQ (selectIdx (swanX curr) subsetIdx)).zip refCurve)
      (rankAvg curr (curr.getD j 0) / (curr.length : ℚ))

/-- The value claim C2 assigns to subtype position `j`: `swanBase`, with any
non-positive result replaced by the sample's background intensity. -/
def swanSpec (curr : List ℚ) (subsetIdx : List ℕ) (refCurve : List ℚ) (bg : ℚ)
    (j : ℕ) : ℚ :=
  if swanBase curr subsetIdx refCurve j ≤ 0 then bg
  else swanBase curr subsetIdx refCurve j

/-- Entry `j` of the corrected subtype vector produced by the source's masked
array operations equals the claim's per-position value, for a sorted
reference curve matching the subset size. -/
theorem swanTypeVal_getD (curr : List ℚ) (S : List ℕ) (fp : List ℚ) (bg : ℚ)
    (j : ℕ) (hj : j < curr.length)
    (hfp : fp.length = S.length) (hS0 : S.length ≠ 0) (hfps : fp.Sorted (· ≤ ·)) :
    (swanTypeVal curr S fp bg).getD j 0 = swanSpec curr S fp bg j := by
  have hxs : (swanX curr).length = curr.length := swanX_length curr
  have hxplen : (sortQ (selectIdx (swanX curr) S)).length = S.length := by
    rw [sortQ_length, selectIdx_length]
  have hxpne : sortQ (selectIdx (swanX curr) S) ≠ [] := by
    intro h
    apply hS0
    rw [← hxplen, h]
    rfl
  have hfpne : fp ≠ [] := by
    intro h
    apply hS0
    rw [← hfp, h]
    rfl
  have htblne : (sortQ (selectIdx (swanX curr) S)).zip fp ≠ [] := by
    intro h
    have h2 := congrArg List.length h
    rw [List.length_zip, hxplen, hfp, min_self] at h2
    exact hS0 h2
  have hinterplen :
      ((swanX curr).map (interpSeg ((sortQ (selectIdx (swanX curr) S)).zip fp))).length
        = curr.length := by
    rw [List.length_map, hxs]
  have hhighlen : (swanShiftHigh (swanX curr)
      (maxL (sortQ (selectIdx (swanX curr) S))) (maxL (selectIdx curr S)) curr
      ((swanX curr).map
        (interpSeg ((sortQ (selectIdx (swanX curr) S)).zip fp)))).length
      = curr.length := by
    unfold swanShiftHigh
    rw [List.length_map, List.length_zip, List.length_zip, hxs, hinterplen, min_self,
      min_self]
  have hlowlen : (swanShiftLow (swanX curr)
      (minL (sortQ (selectIdx (swanX curr) S))) (minL (selectIdx curr S)) curr
      (swanShiftHigh (swanX curr)
        (maxL (sortQ (selectIdx (swanX curr) S))) (maxL (selectIdx curr S)) curr
        ((swanX curr).map
          (interpSeg ((sortQ (selectIdx (swanX curr) S)).zip fp))))).length
      = curr.length := by
    unfold swanShiftLow
    rw [List.length_map, List.length_zip, List.length_zip, hxs, hhighlen, min_self,
      min_self]
  unfold swanTypeVal
  rw [getD_map_q _ _ j (by rw [hlowlen]; exact hj)]
  rw [swanShiftLow_getD _ _ _ _ _ j (by rw [hxs]; exact hj) hj
    (by rw [hhighlen]; exact hj)]
  rw [swanShiftHigh_getD _ _ _ _ _ j (by rw [hxs]; exact hj) hj
    (by rw [hinterplen]; exact hj)]
  rw [getD_map_q (swanX curr) _ j (by rw [hxs]; exact hj)]
  rw [swanX_getD curr j hj]
  have hmain : (if rankAvg curr (curr.getD j 0) / (curr.length : ℚ)
        < minL (sortQ (selectIdx (swanX curr) S)) then
      (if maxL (sortQ (selectIdx (swanX curr) S))
          < rankAvg curr (curr.getD j 0) / (curr.length : ℚ) then
        interpSeg ((sortQ (selectIdx (swanX curr) S)).zip fp)
          (rankAvg curr (curr.getD j 0) / (curr.length : ℚ))
          + (curr.getD j 0 - maxL (selectIdx curr S))
      else
        interpSeg ((sortQ (selectIdx (swanX curr) S)).zip fp)
          (rankAvg curr (curr.getD j 0) / (curr.length : ℚ)))
        + (curr.getD j 0 - minL (selectIdx curr S))
    else
      (if maxL (sortQ (selectIdx (swanX curr) S))
          < rankAvg curr (curr.getD j 0) / (curr.length : ℚ) then
        interpSeg ((sortQ (selectIdx (swanX curr) S)).zip fp)
          (rankAvg curr (curr.getD j 0) / (curr.length : ℚ))
          + (curr.getD j 0 - maxL (selectIdx curr S))
      else
        interpSeg ((sortQ (selectIdx (swanX curr) S)).zip fp)
          (rankAvg curr (curr.getD j 0) / (curr.length : ℚ))))
      = swanBase curr S fp j := by
    unfold swanBase
    by_cases hA : maxL (sortQ (selectIdx (swanX curr) S))
        < rankAvg curr (curr.getD j 0) / (curr.length : ℚ)
    · have hnB : ¬ (rankAvg curr (curr.getD j 0) / (curr.length : ℚ)
          < minL (sortQ (selectIdx (swanX curr) S))) :=
        not_lt.mpr (le_of_lt (lt_of_le_of_lt (minL_le_maxL _ hxpne) hA))
      have hlast : interpSeg ((sortQ (selectIdx (swanX curr) S)).zip fp)
          (rankAvg curr (curr.getD j 0) / (curr.length : ℚ)) = maxL fp := by
        rw [interpSeg_of_lt_all _ htblne _ (fun p hp => by
          rcases p with ⟨p1, p2⟩
          exact lt_of_le_of_lt (le_maxL _ p1 (List.of_mem_zip hp).1) hA)]
        rw [zip_getLast_snd _ _ (by rw [hxplen, hfp]) hfpne htblne]
        rw [← sorted_maxL_getLast fp hfps hfpne]
      simp only [if_pos hA, if_neg hnB]
      rw [hlast]
    · simp only [if_neg hA]
      by_cases hB : rankAvg curr (curr.getD j 0) / (curr.length : ℚ)
          < minL (sortQ (selectIdx (swanX curr) S))
      · have hhead : interpSeg ((sortQ (selectIdx (swanX curr) S)).zip fp)
            (rankAvg curr (curr.getD j 0) / (curr.length : ℚ)) = minL fp := by
          rw [interpSeg_of_le_head _ htblne _ (by
            rw [zip_head_fst _ _ hxpne htblne,
              ← sorted_minL_head _ (sortQ_sorted _) hxpne]
            exact le_of_lt hB)]
          rw [zip_head_snd _ _ hfpne htblne]
          rw [← sorted_minL_head fp hfps hfpne]
        simp only [if_pos hB]
        rw [hhead]
      · simp only [if_neg hB]
  rw [hmain]
  rfl

/-- If every element succeeds, `mapExcept` collects the successes. -/
theorem mapExcept_ok_of {α β : Type} (f : α → Except String β) (g : α → β)
    (l : List α) (h : ∀ a ∈ l, f a = .ok (g a)) : mapExcept f l = .ok (l.map g) := by
  induction l with
  | nil => rfl
  | cons a as ih =>
    unfold mapExcept
    rw [h a (List.mem_cons_self a as),
      ih (fun a' ha' => h a' (List.mem_cons_of_mem a ha')), List.map_cons]

theorem broadcastAvg_eq_zipAvg (a b : List ℚ) (h : a.length = b.length) :
    broadcastAvg a b = (a.zip b).map (fun p => (p.1 + p.2) / 2) := by
  unfold broadcastAvg
  rw [if_pos h]

theorem broadcastAvg_length_eq (a b : List ℚ) (h : a.length = b.length) :
    (broadcastAvg a b).length = a.length := by
  rw [broadcastAvg_eq_zipAvg a b h, List.length_map, List.length_zip, h, min_self]

/-- C2: on well-formed inputs — rows of a common width, valid, duplicate-free
and disjoint subtype index vectors, valid subset indices, equal-size nonempty
random subsets, and pairwise-distinct subset intensities (ties among subset
ranks are excluded so that the embedded `np.interp` provably matches numpy's
binary search) — the SWAN correction succeeds, and each corrected entry at
subtype position `j` of sample `i` equals the claim's value `swanSpec`: the
reference curve is the elementwise average of the two sorted subset intensity
vectors; the subtype's full vector is rank-normalized (rank over subtype
size); the normalized rank is linearly interpolated through the table from the
sorted subset ranks to the reference curve; a rank above (below) the subset's
maximum (minimum) rank instead adds the raw intensity's offset from the
subset's maximum (minimum) raw intensity to the maximum (minimum) of the
reference curve; and every non-positive result is replaced by the sample's
supplied background intensity. -/
theorem swan_characterization (intensity : List (List ℚ)) (bg_intensity : List ℚ)
    (allIdx rsIdx : ProbeType → List ℕ) (w : ℕ)
    (hw : ∀ row ∈ intensity, row.length = w)
    (hidx : ∀ pt : ProbeType, ∀ a ∈ allIdx pt, a < w)
    (hsubv : ∀ pt : ProbeType, ∀ j ∈ rsIdx pt, j < (allIdx pt).length)
    (hnd1 : (allIdx ProbeType.one).Nodup) (hnd2 : (allIdx ProbeType.two).Nodup)
    (hdisj : ∀ a ∈ allIdx ProbeType.one, a ∉ allIdx ProbeType.two)
    (hlen : (rsIdx ProbeType.one).length = (rsIdx ProbeType.two).length)
    (hne1 : (rsIdx ProbeType.one).length ≠ 0)
    (hdistinct : ∀ i < intensity.length, ∀ pt : ProbeType,
      (selectIdx (selectIdx (intensity.getD i []) (allIdx pt)) (rsIdx pt)).Nodup) :
    ∃ out, _preprocess_swan_main intensity bg_intensity allIdx rsIdx = .ok out ∧
      out.length = intensity.length ∧
      ∀ i < intensity.length, ∀ pt : ProbeType, ∀ j < (allIdx pt).length,
        (out.getD i []).getD ((allIdx pt).getD j 0) none
          = some (swanSpec
              (selectIdx (intensity.getD i []) (allIdx pt)) (rsIdx pt)
              (((sortQ (selectIdx (intensity.getD i [])
                  (selectNat (allIdx ProbeType.one) (rsIdx ProbeType.one)))).zip
                (sortQ (selectIdx (intensity.getD i [])
                  (selectNat (allIdx ProbeType.two) (rsIdx ProbeType.two))))).map
                (fun p => (p.1 + p.2) / 2))
              (bg_intensity.getD i 0) j) := by
  have hs2 : (rsIdx ProbeType.two).length ≠ 0 := by rw [← hlen]; exact hne1
  have hcomp : broadcastCompatible (selectNat (allIdx .one) (rsIdx .one)).length
      (selectNat (allIdx .two) (rsIdx .two)).length := by
    rw [selectNat_length, selectNat_length]
    exact Or.inl hlen
  have hAlen : ∀ i : ℕ, (sortQ (selectIdx (intensity.getD i [])
      (selectNat (allIdx ProbeType.one) (rsIdx ProbeType.one)))).length
      = (rsIdx ProbeType.one).length := by
    intro i
    rw [sortQ_length, selectIdx_length, selectNat_length]
  have hBlen : ∀ i : ℕ, (sortQ (selectIdx (intensity.getD i [])
      (selectNat (allIdx ProbeType.two) (rsIdx ProbeType.two)))).length
      = (rsIdx ProbeType.two).length := by
    intro i
    rw [sortQ_length, selectIdx_length, selectNat_length]
  have hABeq : ∀ i : ℕ, (sortQ (selectIdx (intensity.getD i [])
      (selectNat (allIdx ProbeType.one) (rsIdx ProbeType.one)))).length
      = (sortQ (selectIdx (intensity.getD i [])
        (selectNat (allIdx ProbeType.two) (rsIdx ProbeType.two)))).length := by
    intro i
    rw [hAlen, hBlen, hlen]
  have hssilen : ∀ i : ℕ, (broadcastAvg
      (sortQ (selectIdx (intensity.getD i [])
        (selectNat (allIdx ProbeType.one) (rsIdx ProbeType.one))))
      (sortQ (selectIdx (intensity.getD i [])
        (selectNat (allIdx ProbeType.two) (rsIdx ProbeType.two))))).length
      = (rsIdx ProbeType.one).length := by
    intro i
    rw [broadcastAvg_length_eq _ _ (hABeq i), hAlen]
  have hok : _preprocess_swan_main intensity bg_intensity allIdx rsIdx
      = .ok ((List.range intensity.length).map (fun i =>
          swanSampleVal allIdx rsIdx
            (broadcastAvg
              (sortQ (selectIdx (intensity.getD i [])
                (selectNat (allIdx ProbeType.one) (rsIdx ProbeType.one))))
              (sortQ (selectIdx (intensity.getD i [])
                (selectNat (allIdx ProbeType.two) (rsIdx ProbeType.two)))))
            (intensity.getD i []) (bg_intensity.getD i 0))) := by
    unfold _preprocess_swan_main
    rw [if_neg (not_not_intro hcomp)]
    apply mapExcept_ok_of
    intro i _
    exact swanSample_ok _ _ _ _ _ (by rw [hssilen]) (by rw [hssilen, hlen]) hne1 hs2
  refine ⟨_, hok, by rw [List.length_map, List.length_range], ?_⟩
  intro i hi pt j hj
  have hrow : ((List.range intensity.length).map (fun i =>
      swanSampleVal allIdx rsIdx
        (broadcastAvg
          (sortQ (selectIdx (intensity.getD i [])
            (selectNat (allIdx ProbeType.one) (rsIdx ProbeType.one))))
          (sortQ (selectIdx (intensity.getD i [])
            (selectNat (allIdx ProbeType.two) (rsIdx ProbeType.two)))))
        (intensity.getD i []) (bg_intensity.getD i 0))).getD i []
      = swanSampleVal allIdx rsIdx
          (broadcastAvg
            (sortQ (selectIdx (intensity.getD i [])
              (selectNat (allIdx ProbeType.one) (rsIdx ProbeType.one))))
            (sortQ (selectIdx (intensity.getD i [])
              (selectNat (allIdx ProbeType.two) (rsIdx ProbeType.two)))))
          (intensity.getD i []) (bg_intensity.getD i 0) := by
    rw [List.getD_eq_getElem _ _ (by rw [List.length_map, List.length_range]; exact hi),
      List.getElem_map, List.getElem_range]
  rw [hrow]
  have hrowlen : (intensity.getD i []).length = w := by
    apply hw
    rw [List.getD_eq_getElem _ _ hi]
    exact List.getElem_mem _
  have hWrow : ((intensity.getD i []).map (fun _ => (none : Option ℚ))).length = w := by
    rw [List.length_map, hrowlen]
  have hmem : (allIdx pt).getD j 0 ∈ allIdx pt := by
    rw [List.getD_eq_getElem _ _ hj]
    exact List.getElem_mem _
  have hfp2 : (broadcastAvg
      (sortQ (selectIdx (intensity.getD i [])
        (selectNat (allIdx ProbeType.one) (rsIdx ProbeType.one))))
      (sortQ (selectIdx (intensity.getD i [])
        (selectNat (allIdx ProbeType.two) (rsIdx ProbeType.two)))))
      = ((sortQ (selectIdx (intensity.getD i [])
          (selectNat (allIdx ProbeType.one) (rsIdx ProbeType.one)))).zip
        (sortQ (selectIdx (intensity.getD i [])
          (selectNat (allIdx ProbeType.two) (rsIdx ProbeType.two))))).map
        (fun p => (p.1 + p.2) / 2) :=
    broadcastAvg_eq_zipAvg _ _ (hABeq i)
  have hfplen2 : (((sortQ (selectIdx (intensity.getD i [])
      (selectNat (allIdx ProbeType.one) (rsIdx ProbeType.one)))).zip
      (sortQ (selectIdx (intensity.getD i [])
        (selectNat (allIdx ProbeType.two) (rsIdx ProbeType.two))))).map
      (fun p => (p.1 + p.2) / 2)).length = (rsIdx ProbeType.one).length := by
    rw [← hfp2, hssilen]
  have hfpsorted : (((sortQ (selectIdx (intensity.getD i [])
      (selectNat (allIdx ProbeType.one) (rsIdx ProbeType.one)))).zip
      (sortQ (selectIdx (intensity.getD i [])
        (selectNat (allIdx ProbeType.two) (rsIdx ProbeType.two))))).map
      (fun p => (p.1 + p.2) / 2)).Sorted (· ≤ ·) :=
    zipAvg_sorted _ _ (sortQ_sorted _) (sortQ_sorted _)
  cases pt with
  | one =>
    unfold swanSampleVal
    rw [scatterRow_not_mem _ _ _ _ (hdisj _ hmem)]
    rw [scatterRow_getD _ _ _ hnd1
      (by rw [swanTypeVal_length, selectIdx_length])
      (fun a ha => by rw [hWrow]; exact hidx ProbeType.one a ha) j hj]
    rw [hfp2]
    congr 1
    apply swanTypeVal_getD
    · rw [selectIdx_length]; exact hj
    · rw [hfplen2]
    · exact hne1
    · exact hfpsorted
  | two =>
    unfold swanSampleVal
    rw [scatterRow_getD _ _ _ hnd2
      (by rw [swanTypeVal_length, selectIdx_length])
      (fun a ha => by
        rw [scatterRow_length, hWrow]
        exact hidx ProbeType.two a ha) j hj]
    rw [hfp2]
    congr 1
    apply swanTypeVal_getD
    · rw [selectIdx_length]; exact hj
    · rw [hfplen2, hlen]
    · exact hs2
    · exact hfpsorted

/-- Witness for C2: one sample of width 4, subtypes `{0, 1}` and `{2, 3}`,
full-size random subsets, pairwise-distinct intensities. -/
theorem swan_characterization_witness :
    ∃ out, _preprocess_swan_main [[1, 5, 2, 8]] [7]
      (fun pt => match pt with | .one => [0, 1] | .two => [2, 3])
      (fun pt => match pt with | .one => [0, 1] | .two => [0, 1]) = .ok out := by
  obtain ⟨out, h1, -, -⟩ :=
    swan_characterization [[1, 5, 2, 8]] [7]
      (fun pt => match pt with | .one => [0, 1] | .two => [2, 3])
      (fun pt => match pt with | .one => [0, 1] | .two => [0, 1]) 4
      (by intro row hrow; simp at hrow; rw [hrow]; rfl)
      (by intro pt; cases pt <;> decide)
      (by intro pt; cases pt <;> decide)
      (by decide) (by decide)
      (by decide)
      (by decide) (by decide)
      (by
        intro i hi pt
        simp only [List.length_cons, List.length_nil] at hi
        have hi0 : i = 0 := by omega
        subst hi0
        cases pt <;> norm_num [selectIdx, List.Nodup])
  exact ⟨out, h1⟩

end CnQuant

namespace CnQuant

/-- A probe count is inside one of the fixed lookup ranges of
`ArrayType.from_probe_count`. -/
def inSomeRange (n : ℤ) : Prop :=
  (622000 ≤ n ∧ n ≤ 623000) ∨ (1050000 ≤ n ∧ n ≤ 1053000) ∨
  (1032000 ≤ n ∧ n ≤ 1033000) ∨ (1100000 ≤ n ∧ n ≤ 1108000) ∨
  (384400 ≤ n ∧ n ≤ 384600) ∨ (55200 ≤ n ∧ n ≤ 55400) ∨
  (315000 ≤ n ∧ n ≤ 362000)

instance (n : ℤ) : Decidable (inSomeRange n) := by
  unfold inSomeRange; infer_instance

/-- C4: `ArrayType.from_probe_count` is total over all integers: every count
inside one of the fixed inclusive ranges (edges included) yields that range's
design, and every other count, including zero and negative counts, yields the
`UNKNOWN` sentinel; no input raises. -/
theorem from_probe_count_characterization (n : ℤ) :
    (622000 ≤ n ∧ n ≤ 623000 → ArrayType.from_probe_count n = .ILLUMINA_450K) ∧
    (1050000 ≤ n ∧ n ≤ 1053000 → ArrayType.from_probe_count n = .ILLUMINA_EPIC) ∧
    (1032000 ≤ n ∧ n ≤ 1033000 → ArrayType.from_probe_count n = .ILLUMINA_EPIC) ∧
    (1100000 ≤ n ∧ n ≤ 1108000 → ArrayType.from_probe_count n = .ILLUMINA_EPIC_V2) ∧
    (384400 ≤ n ∧ n ≤ 384600 → ArrayType.from_probe_count n = .ILLUMINA_MSA48) ∧
    (55200 ≤ n ∧ n ≤ 55400 → ArrayType.from_probe_count n = .ILLUMINA_27K) ∧
    (315000 ≤ n ∧ n ≤ 362000 → ArrayType.from_probe_count n = .ILLUMINA_MOUSE) ∧
    (¬ inSomeRange n → ArrayType.from_probe_count n = .UNKNOWN) := by
  unfold ArrayType.from_probe_count inSomeRange
  refine ⟨?_, ?_, ?_, ?_, ?_, ?_, ?_, ?_⟩ <;> intro h <;> split_ifs <;>
    first | rfl | omega

/-- Witness for C4: a boundary value, the second EPIC range, zero and a
negative count, all through `from_probe_count_characterization`. -/
theorem from_probe_count_characterization_witness :
    ArrayType.from_probe_count 622000 = .ILLUMINA_450K ∧
    ArrayType.from_probe_count 1032500 = .ILLUMINA_EPIC ∧
    ArrayType.from_probe_count 0 = .UNKNOWN ∧
    ArrayType.from_probe_count (-17) = .UNKNOWN :=
  ⟨(from_probe_count_characterization 622000).1 (by decide),
   (from_probe_count_characterization 1032500).2.2.1 (by decide),
   (from_probe_count_characterization 0).2.2.2.2.2.2.2 (by decide),
   (from_probe_count_characterization (-17)).2.2.2.2.2.2.2 (by decide)⟩

/-! ## `_get_beta` (src/cnquant_dependencies/preprocessing_functions.py)

The entries of the beta array can be ordinary numbers, NaN (from `0/0` under
`np.errstate(invalid="ignore")`) or signed infinities (from `x/0`, `x ≠ 0`,
under `np.errstate(divide="ignore")`).  `NF` models exactly these four kinds
of IEEE values at rational precision. -/

/-- A numpy floating-point value: a finite number, `+inf`, `-inf` or NaN. -/
inductive NF where
  | num (q : ℚ)
  | pinf
  | ninf
  | nan
deriving DecidableEq

/-- Elementwise float division `n / d` under
`np.errstate(divide="ignore", invalid="ignore")`: `0/0` is NaN, `n/0` with
`n ≠ 0` is a signed infinity, otherwise the exact quotient. -/
def qdivNF (n d : ℚ) : NF :=
  if d = 0 then (if n = 0 then .nan else if 0 < n then .pinf else .ninf)
  else .num (n / d)

/-- `np.maximum b t` for a float `b` and finite scalar `t`: NaN propagates,
infinities compare as expected. -/
def maxNF (b : NF) (t : ℚ) : NF :=
  match b with
  | .nan => .nan
  | .pinf => .pinf
  | .ninf => .num t
  | .num q => .num (max q t)

/-- `np.minimum b t` for a float `b` and finite scalar `t`: NaN propagates,
infinities compare as expected. -/
def minNF (b : NF) (t : ℚ) : NF :=
  match b with
  | .nan => .nan
  | .pinf => .num t
  | .ninf => .ninf
  | .num q => .num (min q t)

/-- `_get_beta(methylated, unmethylated, offset, beta_threshold, min_zero)`:
validates `offset` and `beta_threshold`, optionally floors the inputs at zero,
forms the elementwise ratio `methylated / (methylated + unmethylated + offset)`
with numpy division semantics, and clips into
`[beta_threshold, 1 - beta_threshold]` when `beta_threshold > 0`. -/
def _get_beta (methylated unmethylated : List ℚ) (offset beta_threshold : ℚ)
    (min_zero : Bool) : Except String (List NF) :=
  if offset < 0 then .error "offset must be non-negative"
  else if ¬(0 ≤ beta_threshold ∧ beta_threshold ≤ 1/2) then
    .error "beta_threshold must be between 0 and 0.5"
  else
    let m := if min_zero then methylated.map (fun v => max v 0) else methylated
    let u := if min_zero then unmethylated.map (fun v => max v 0) else unmethylated
    let betas := (m.zip u).map (fun p => qdivNF p.1 (p.1 + p.2 + offset))
    .ok (if 0 < beta_threshold then
          betas.map (fun b => minNF (maxNF b beta_threshold) (1 - beta_threshold))
        else betas)

/-- `getD` of a zero-floored list. -/
theorem getD_map_max0 (l : List ℚ) (j : ℕ) (h : j < l.length) :
    (l.map (fun v => max v 0)).getD j 0 = max (l.getD j 0) 0 := by
  rw [List.getD_eq_getElem _ _ (by simpa using h), List.getElem_map,
    List.getD_eq_getElem _ _ h]

/-- `getD` of the raw beta list. -/
theorem beta_entry (m u : List ℚ) (offset : ℚ) (j : ℕ)
    (h1 : j < m.length) (h2 : j < u.length) :
    ((m.zip u).map (fun p => qdivNF p.1 (p.1 + p.2 + offset))).getD j NF.nan
      = qdivNF (m.getD j 0) (m.getD j 0 + u.getD j 0 + offset) := by
  have hz : j < (m.zip u).length := by
    rw [List.length_zip]; exact lt_min h1 h2
  rw [List.getD_eq_getElem _ _ (by simpa using hz), List.getElem_map,
    List.getElem_zip, List.getD_eq_getElem _ _ h1, List.getD_eq_getElem _ _ h2]

/-- `getD` of the clipped beta list. -/
theorem beta_clip_entry (betas : List NF) (t : ℚ) (j : ℕ) (h : j < betas.length) :
    (betas.map (fun b => minNF (maxNF b t) (1 - t))).getD j NF.nan
      = minNF (maxNF (betas.getD j NF.nan) t) (1 - t) := by
  rw [List.getD_eq_getElem _ _ (by simpa using h), List.getElem_map,
    List.getD_eq_getElem _ _ h]


/-- `DecidableEq` for `Except`, used to evaluate concrete runs of the model. -/
instance {ε α : Type} [DecidableEq ε] [DecidableEq α] : DecidableEq (Except ε α) := fun a b =>
  match a, b with
  | .ok x, .ok y =>
      if h : x = y then isTrue (by rw [h]) else isFalse (by intro hc; cases hc; exact h rfl)
  | .error x, .error y =>
      if h : x = y then isTrue (by rw [h]) else isFalse (by intro hc; cases hc; exact h rfl)
  | .ok _, .error _ => isFalse (by intro hc; cases hc)
  | .error _, .ok _ => isFalse (by intro hc; cases hc)

/-- The value at position `j` of the (optionally zero-floored) input list, as
used by `_get_beta`. -/
def floored (min_zero : Bool) (l : List ℚ) (j : ℕ) : ℚ :=
  if min_zero then max (l.getD j 0) 0 else l.getD j 0

/-- Counterexample to C3 as stated: with `min_zero` unset, on
`methylated = [5]`, `unmethylated = [-5]`, `offset = 0`, the denominator is
zero but the returned entry is `+inf`, not NaN (numpy `5.0/0.0` under
`divide="ignore"`), so "a zero denominator yields NaN" fails. -/
theorem get_beta_zero_denominator_not_nan :
    _get_beta [5] [-5] 0 0 false = .ok [NF.pinf] ∧ NF.pinf ≠ NF.nan := by
  refine ⟨?_, ?_⟩
  · norm_num [_get_beta, qdivNF]
  · decide

/-- C3 (amended): with a non-negative offset and a threshold in `[0, 1/2]`,
`_get_beta` returns (never raises) the elementwise ratio
`m / (m + u + offset)` of the (optionally zero-floored) inputs, clipped into
`[threshold, 1 - threshold]` when `threshold > 0`; a zero denominator yields
NaN exactly when the numerator is also zero (always the case when `min_zero`
is set) and a signed infinity otherwise; a negative offset or an out-of-range
threshold is a hard error, raised before any computation. -/
theorem get_beta_characterization (methylated unmethylated : List ℚ)
    (offset beta_threshold : ℚ) (min_zero : Bool)
    (hoff : 0 ≤ offset) (ht0 : 0 ≤ beta_threshold) (ht1 : beta_threshold ≤ 1/2) :
    ∃ out, _get_beta methylated unmethylated offset beta_threshold min_zero = .ok out ∧
      out.length = min methylated.length unmethylated.length ∧
      (∀ j : ℕ, j < out.length →
        (floored min_zero methylated j + floored min_zero unmethylated j + offset = 0 →
          floored min_zero methylated j = 0 → out.getD j .nan = .nan) ∧
        (min_zero = true →
          floored min_zero methylated j + floored min_zero unmethylated j + offset = 0 →
          out.getD j .nan = .nan) ∧
        (floored min_zero methylated j + floored min_zero unmethylated j + offset ≠ 0 →
          beta_threshold = 0 →
          out.getD j .nan = .num (floored min_zero methylated j /
            (floored min_zero methylated j + floored min_zero unmethylated j + offset))) ∧
        (floored min_zero methylated j + floored min_zero unmethylated j + offset ≠ 0 →
          0 < beta_threshold →
          out.getD j .nan = .num (min (max (floored min_zero methylated j /
            (floored min_zero methylated j + floored min_zero unmethylated j + offset))
            beta_threshold) (1 - beta_threshold)))) ∧
      (∀ offBad : ℚ, offBad < 0 →
        ∃ e, _get_beta methylated unmethylated offBad beta_threshold min_zero = .error e) ∧
      (∀ tBad : ℚ, tBad < 0 ∨ 1/2 < tBad →
        ∃ e, _get_beta methylated unmethylated offset tBad min_zero = .error e) := by
  have hg1 : ¬ offset < 0 := not_lt.mpr hoff
  have hg2 : ¬ ¬ (0 ≤ beta_threshold ∧ beta_threshold ≤ 1/2) :=
    not_not_intro ⟨ht0, ht1⟩
  unfold _get_beta
  rw [if_neg hg1, if_neg hg2]
  refine ⟨_, rfl, ?_, ?_, ?_, ?_⟩
  · -- length
    cases min_zero <;> split_ifs <;>
      simp [List.length_zip]
  · -- entrywise characterization
    intro j hj
    have hjm : j < methylated.length := by
      revert hj
      cases min_zero <;> split_ifs <;> simp [List.length_zip, lt_min_iff] <;> omega
    have hju : j < unmethylated.length := by
      revert hj
      cases min_zero <;> split_ifs <;> simp [List.length_zip, lt_min_iff] <;> omega
    clear hj
    have hfm : (if min_zero then methylated.map (fun v => max v 0) else methylated).getD j 0
        = floored min_zero methylated j := by
      cases min_zero
      · rfl
      · show (methylated.map (fun v => max v 0)).getD j 0 = max (methylated.getD j 0) 0
        exact getD_map_max0 methylated j hjm
    have hfu : (if min_zero then unmethylated.map (fun v => max v 0) else unmethylated).getD j 0
        = floored min_zero unmethylated j := by
      cases min_zero
      · rfl
      · show (unmethylated.map (fun v => max v 0)).getD j 0 = max (unmethylated.getD j 0) 0
        exact getD_map_max0 unmethylated j hju
    have hflm : j < (if min_zero then methylated.map (fun v => max v 0) else methylated).length := by
      cases min_zero <;> simpa using hjm
    have hflu : j < (if min_zero then unmethylated.map (fun v => max v 0) else unmethylated).length := by
      cases min_zero <;> simpa using hju
    have hkey :
        (((if min_zero then methylated.map (fun v => max v 0) else methylated).zip
            (if min_zero then unmethylated.map (fun v => max v 0) else unmethylated)).map
            (fun p => qdivNF p.1 (p.1 + p.2 + offset))).getD j NF.nan
          = qdivNF (floored min_zero methylated j)
              (floored min_zero methylated j + floored min_zero unmethylated j + offset) := by
      rw [beta_entry _ _ _ _ hflm hflu, hfm, hfu]
    have hblen : j <
        ((((if min_zero then methylated.map (fun v => max v 0) else methylated)).zip
            (if min_zero then unmethylated.map (fun v => max v 0) else unmethylated)).map
            (fun p => qdivNF p.1 (p.1 + p.2 + offset))).length := by
      rw [List.length_map, List.length_zip]; exact lt_min hflm hflu
    refine ⟨?_, ?_, ?_, ?_⟩
    · -- zero denominator, zero numerator: NaN
      intro hd hm
      by_cases hbt : 0 < beta_threshold
      · rw [if_pos hbt, beta_clip_entry _ _ _ hblen, hkey, hd]
        simp [qdivNF, hm, maxNF, minNF]
      · rw [if_neg hbt, hkey, hd]
        simp [qdivNF, hm]
    · -- min_zero forces numerator zero whenever the denominator is zero
      intro hmz hd
      have hM0 : 0 ≤ floored min_zero methylated j := by
        rw [floored, if_pos hmz]; exact le_max_right _ _
      have hU0 : 0 ≤ floored min_zero unmethylated j := by
        rw [floored, if_pos hmz]; exact le_max_right _ _
      have hm : floored min_zero methylated j = 0 := by linarith
      by_cases hbt : 0 < beta_threshold
      · rw [if_pos hbt, beta_clip_entry _ _ _ hblen, hkey, hd]
        simp [qdivNF, hm, maxNF, minNF]
      · rw [if_neg hbt, hkey, hd]
        simp [qdivNF, hm]
    · -- nonzero denominator, no thresholding: exact ratio
      intro hd hbt
      rw [if_neg (by rw [hbt]; exact lt_irrefl 0), hkey]
      simp [qdivNF, hd]
    · -- nonzero denominator, thresholding: clipped ratio
      intro hd hbt
      rw [if_pos hbt, beta_clip_entry _ _ _ hblen, hkey]
      simp [qdivNF, hd, maxNF, minNF]
  · -- negative offset: hard error before any computation
    intro offBad hbad
    rw [if_pos hbad]
    exact ⟨_, rfl⟩
  · -- threshold outside [0, 1/2]: hard error before any computation
    intro tBad hbad
    rw [if_neg hg1, if_pos (by rintro ⟨h1, h2⟩; rcases hbad with h | h <;> linarith)]
    exact ⟨_, rfl⟩

/-- Witness for C3 (amended): the theorem applied at
`methylated = [3]`, `unmethylated = [1]`, `offset = 0`, `threshold = 0`,
`min_zero = true`. -/
theorem get_beta_characterization_witness :
    ∃ out, _get_beta [3] [1] 0 0 true = .ok out := by
  obtain ⟨out, h1, -⟩ :=
    get_beta_characterization [3] [1] 0 0 true (by norm_num) (by norm_num) (by norm_num)
  exact ⟨out, h1⟩

/-- Concrete spec examples for the beta computation: `beta(3,1,offset=0) = 0.75`,
`beta(0,0,offset=0)` is NaN, and a beta of `0.02` is clipped to `0.1` under
`threshold = 0.1`. -/
theorem get_beta_examples :
    _get_beta [3] [1] 0 0 true = .ok [NF.num (3/4)] ∧
    _get_beta [0] [0] 0 0 true = .ok [NF.nan] ∧
    _get_beta [2/100] [98/100] 0 (1/10) true = .ok [NF.num (1/10)] := by
  refine ⟨?_, ?_, ?_⟩ <;> norm_num [_get_beta, qdivNF, maxNF, minNF]

/-- Counterexample to C10 as stated: with `min_zero` unset and
`beta_threshold = 1/10`, on `methylated = [5]`, `unmethylated = [-5]`,
`offset = 0`, the denominator `5 + (-5) + 0` is zero, yet the returned entry
is `0.9` — a value inside `[threshold, 1 - threshold]`, not NaN: the raw beta
is `+inf` (numpy `5.0/0.0`), and `np.minimum(np.maximum(inf, 0.1), 0.9) = 0.9`. -/
theorem get_beta_threshold_inf_clipped :
    _get_beta [5] [-5] 0 (1/10) false = .ok [NF.num (9/10)] ∧
    NF.num (9/10) ≠ NF.nan := by
  refine ⟨?_, ?_⟩
  · norm_num [_get_beta, qdivNF, maxNF, minNF]
  · decide

/-- C10 (amended): with `beta_threshold > 0`, every entry whose raw beta is NaN
(in particular every zero-denominator entry with zero numerator, which is every
zero-denominator entry when `min_zero` is set) remains NaN in the returned
array; thresholding clips only non-NaN betas, mapping each finite beta `q` to
`min (max q t) (1 - t)`, a value inside `[t, 1 - t]`. -/
theorem get_beta_nan_preservation (methylated unmethylated : List ℚ)
    (offset beta_threshold : ℚ) (min_zero : Bool)
    (hoff : 0 ≤ offset) (ht0 : 0 < beta_threshold) (ht1 : beta_threshold ≤ 1/2) :
    ∃ out, _get_beta methylated unmethylated offset beta_threshold min_zero = .ok out ∧
      (∀ j : ℕ, j < out.length →
        (qdivNF (floored min_zero methylated j)
            (floored min_zero methylated j + floored min_zero unmethylated j + offset) = .nan →
          out.getD j .nan = .nan) ∧
        (min_zero = true →
          floored min_zero methylated j + floored min_zero unmethylated j + offset = 0 →
          out.getD j .nan = .nan) ∧
        (∀ q : ℚ, qdivNF (floored min_zero methylated j)
            (floored min_zero methylated j + floored min_zero unmethylated j + offset) = .num q →
          out.getD j .nan = .num (min (max q beta_threshold) (1 - beta_threshold)) ∧
          beta_threshold ≤ min (max q beta_threshold) (1 - beta_threshold) ∧
          min (max q beta_threshold) (1 - beta_threshold) ≤ 1 - beta_threshold)) := by
  have hg1 : ¬ offset < 0 := not_lt.mpr hoff
  have hg2 : ¬ ¬ (0 ≤ beta_threshold ∧ beta_threshold ≤ 1/2) :=
    not_not_intro ⟨le_of_lt ht0, ht1⟩
  unfold _get_beta
  rw [if_neg hg1, if_neg hg2]
  refine ⟨_, rfl, ?_⟩
  intro j hj
  have hjm : j < methylated.length := by
    revert hj
    cases min_zero <;> split_ifs <;> simp [List.length_zip, lt_min_iff] <;> omega
  have hju : j < unmethylated.length := by
    revert hj
    cases min_zero <;> split_ifs <;> simp [List.length_zip, lt_min_iff] <;> omega
  clear hj
  have hfm : (if min_zero then methylated.map (fun v => max v 0) else methylated).getD j 0
      = floored min_zero methylated j := by
    cases min_zero
    · rfl
    · show (methylated.map (fun v => max v 0)).getD j 0 = max (methylated.getD j 0) 0
      exact getD_map_max0 methylated j hjm
  have hfu : (if min_zero then unmethylated.map (fun v => max v 0) else unmethylated).getD j 0
      = floored min_zero unmethylated j := by
    cases min_zero
    · rfl
    · show (unmethylated.map (fun v => max v 0)).getD j 0 = max (unmethylated.getD j 0) 0
      exact getD_map_max0 unmethylated j hju
  have hflm : j < (if min_zero then methylated.map (fun v => max v 0) else methylated).length := by
    cases min_zero <;> simpa using hjm
  have hflu : j < (if min_zero then unmethylated.map (fun v => max v 0) else unmethylated).length := by
    cases min_zero <;> simpa using hju
  have hkey :
      (((if min_zero then methylated.map (fun v => max v 0) else methylated).zip
          (if min_zero then unmethylated.map (fun v => max v 0) else unmethylated)).map
          (fun p => qdivNF p.1 (p.1 + p.2 + offset))).getD j NF.nan
        = qdivNF (floored min_zero methylated j)
            (floored min_zero methylated j + floored min_zero unmethylated j + offset) := by
    rw [beta_entry _ _ _ _ hflm hflu, hfm, hfu]
  have hblen : j <
      ((((if min_zero then methylated.map (fun v => max v 0) else methylated)).zip
          (if min_zero then unmethylated.map (fun v => max v 0) else unmethylated)).map
          (fun p => qdivNF p.1 (p.1 + p.2 + offset))).length := by
    rw [List.length_map, List.length_zip]; exact lt_min hflm hflu
  have hout : ∀ b,
      (((if min_zero then methylated.map (fun v => max v 0) else methylated).zip
          (if min_zero then unmethylated.map (fun v => max v 0) else unmethylated)).map
          (fun p => qdivNF p.1 (p.1 + p.2 + offset))).getD j NF.nan = b →
      (if 0 < beta_threshold then
          ((((if min_zero then methylated.map (fun v => max v 0) else methylated)).zip
            (if min_zero then unmethylated.map (fun v => max v 0) else unmethylated)).map
            (fun p => qdivNF p.1 (p.1 + p.2 + offset))).map
            (fun x => minNF (maxNF x beta_threshold) (1 - beta_threshold))
        else (((if min_zero then methylated.map (fun v => max v 0) else methylated)).zip
            (if min_zero then unmethylated.map (fun v => max v 0) else unmethylated)).map
            (fun p => qdivNF p.1 (p.1 + p.2 + offset))).getD j NF.nan
        = minNF (maxNF b beta_threshold) (1 - beta_threshold) := by
    intro b hb
    rw [if_pos ht0, beta_clip_entry _ _ _ hblen, hb]
  refine ⟨?_, ?_, ?_⟩
  · intro hnan
    rw [hout _ (hkey.trans hnan)]
    simp [maxNF, minNF]
  · intro hmz hd
    have hM0 : 0 ≤ floored min_zero methylated j := by
      rw [floored, if_pos hmz]; exact le_max_right _ _
    have hU0 : 0 ≤ floored min_zero unmethylated j := by
      rw [floored, if_pos hmz]; exact le_max_right _ _
    have hm : floored min_zero methylated j = 0 := by linarith
    have hd2 : floored min_zero unmethylated j + offset = 0 := by linarith
    have hnan : qdivNF (floored min_zero methylated j)
        (floored min_zero methylated j + floored min_zero unmethylated j + offset) = .nan := by
      simp [qdivNF, hm, hd2]
    rw [hout _ (hkey.trans hnan)]
    simp [maxNF, minNF]
  · intro q hq
    rw [hout _ (hkey.trans hq)]
    refine ⟨rfl, ?_, ?_⟩
    · have h2 : beta_threshold ≤ 1 - beta_threshold := by linarith
      exact le_min (le_max_right _ _) h2
    · exact min_le_right _ _

/-- Witness for C10 (amended): the theorem applied at
`methylated = [0]`, `unmethylated = [0]`, `offset = 0`, `threshold = 1/10`,
`min_zero = true`. -/
theorem get_beta_nan_preservation_witness :
    ∃ out, _get_beta [0] [0] 0 (1/10) true = .ok out := by
  obtain ⟨out, h1, -⟩ :=
    get_beta_nan_preservation [0] [0] 0 (1/10) true (by norm_num) (by norm_num) (by norm_num)
  exact ⟨out, h1⟩

end CnQuant
